import Mathlib

/-!
Verification development for the rust_kern kernel core.

Conventions used throughout this file:
* `u64` / `usize` values are modelled as `Nat`; where two's-complement wrap-around
  matters the reduction `% 2 ^ 64` (or the equivalent mask) is written explicitly.
* A Rust function that can panic (`assert!`, `debug_assert!`, `expect`, `unwrap`,
  out-of-bounds indexing) is modelled as returning `Option _`, with `none` for the
  panic.  `debug_assert!` is treated like `assert!`.
* A Rust function returning `Result<T, MemoryError>` that can additionally panic is
  modelled as `Option (Except MemoryError T)` (plus the updated state where the
  source mutates state).
-/

set_option maxHeartbeats 1000000
set_option maxRecDepth 16384

namespace RustKern

/-! ## Basic constants and the `Frame` type (src/physmem/mod.rs, src/types/frame.rs)

`PAGE_SIZE` is 4096 (`pub const PAGE_SIZE: u64 = 4096`).  A `Frame` identifies a
4 KiB physical page; `containing_address` aligns the address down to a page
boundary, `physical_address`/`start_address` returns the page-aligned address and
`from_index`/`index` convert between frames and frame indices. -/

def PAGE_SIZE : Nat := 4096

structure Frame where
  startAddress : Nat
deriving DecidableEq, Repr

def Frame.containingAddress (address : Nat) : Frame :=
  ⟨address / PAGE_SIZE * PAGE_SIZE⟩

def Frame.physicalAddress (f : Frame) : Nat := f.startAddress

def Frame.fromIndex (i : Nat) : Frame := ⟨i * PAGE_SIZE⟩

def Frame.index (f : Frame) : Nat := f.startAddress / PAGE_SIZE

/-! ## Raw page-table entries (src/paging/page_entry.rs)

A `RawPte` is the raw 64-bit page-table entry.  Bit 0 is `RawPageFlags::PRESENT`.
`present()` / `not_present()` are the two `TryFrom` conversions; each keeps the
raw bits unchanged and fails (`InvalidPteError`) exactly when the present bit is
wrong for the target type.  The error result is modelled as `none`. -/

structure RawPte where
  bits : Nat
deriving DecidableEq, Repr

def RawPte.unused : RawPte := ⟨0⟩

def RawPte.is_unused (r : RawPte) : Bool := r = RawPte.unused

def RawPte.is_present (r : RawPte) : Bool := r.bits.testBit 0

/-- Hardware/software flag bits of a present PTE (`PresentPageFlags`). -/
def PresentPageFlags.WRITABLE : Nat := 1 <<< 1
def PresentPageFlags.USER_ACCESSIBLE : Nat := 1 <<< 2
def PresentPageFlags.WRITE_THROUGH : Nat := 1 <<< 3
def PresentPageFlags.NO_CACHE : Nat := 1 <<< 4
def PresentPageFlags.ACCESSED : Nat := 1 <<< 5
def PresentPageFlags.DIRTY : Nat := 1 <<< 6
def PresentPageFlags.HUGE_PAGE : Nat := 1 <<< 7
def PresentPageFlags.GLOBAL : Nat := 1 <<< 8
def PresentPageFlags.REGION_HEADER : Nat := 1 <<< 9
def PresentPageFlags.NO_EXECUTE : Nat := 1 <<< 63

structure RawPresentPte where
  bits : Nat
deriving DecidableEq, Repr

/-- `RawPresentPte::COUNTER_BITS = 0x7ff0_0000_0000_0000`. -/
def RawPresentPte.COUNTER_BITS : Nat := 0x7ff0000000000000

/-- `RawPresentPte::COUNTER_SHIFT = 52`. -/
def RawPresentPte.COUNTER_SHIFT : Nat := 52

/-- `MAX_COUNTER_VALUE = ((COUNTER_BITS >> COUNTER_SHIFT) + 1) as u16 = 0x800`. -/
def RawPresentPte.MAX_COUNTER_VALUE : Nat := 0x800

/-- `RawPresentPte::from_frame_flags_and_counter`; the `assert!(counter <
MAX_COUNTER_VALUE)` is the `none` case. -/
def RawPresentPte.from_frame_flags_and_counter (frame : Frame) (flags : Nat)
    (counter : Nat) : Option RawPresentPte :=
  if counter < RawPresentPte.MAX_COUNTER_VALUE then
    some ⟨frame.physicalAddress ||| flags ||| 1 ||| (counter <<< RawPresentPte.COUNTER_SHIFT)⟩
  else
    none

/-- `RawPresentPte::from_frame_and_flags` delegates with counter 0. -/
def RawPresentPte.from_frame_and_flags (frame : Frame) (flags : Nat) :
    Option RawPresentPte :=
  RawPresentPte.from_frame_flags_and_counter frame flags 0

/-- `RawPresentPte::counter`: `((bits & COUNTER_BITS) >> COUNTER_SHIFT) as u16`. -/
def RawPresentPte.counter (p : RawPresentPte) : Nat :=
  (p.bits &&& RawPresentPte.COUNTER_BITS) >>> RawPresentPte.COUNTER_SHIFT

/-- `RawPresentPte::frame`: mask out the 52-bit frame field. -/
def RawPresentPte.frame (p : RawPresentPte) : Frame :=
  Frame.containingAddress (p.bits &&& 0x000ffffffffff000)

/-- `impl From<RawPresentPte> for RawPte`: keeps the raw bits. -/
def RawPresentPte.toRawPte (p : RawPresentPte) : RawPte := ⟨p.bits⟩

/-- `RawPte::present()` (`TryFrom<RawPte> for RawPresentPte`). -/
def RawPte.present (r : RawPte) : Option RawPresentPte :=
  if r.is_present then some ⟨r.bits⟩ else none

/-- `NotPresentPageType` (software type stored in a non-present PTE). -/
inductive NotPresentPageType where
  | Unused
  | GuardPage
  | RegionHeader
deriving DecidableEq, Repr

def NotPresentPageType.toNat : NotPresentPageType → Nat
  | .Unused => 0
  | .GuardPage => 1
  | .RegionHeader => 2

structure RawNotPresentPte where
  bits : Nat
deriving DecidableEq, Repr

def RawNotPresentPte.COUNTER_BITS : Nat := RawPresentPte.COUNTER_BITS
def RawNotPresentPte.COUNTER_SHIFT : Nat := RawPresentPte.COUNTER_SHIFT
def RawNotPresentPte.MAX_COUNTER_VALUE : Nat := RawPresentPte.MAX_COUNTER_VALUE
def RawNotPresentPte.TYPE_BITS : Nat := 0x1fe
def RawNotPresentPte.TYPE_SHIFT : Nat := 1

def RawNotPresentPte.unused : RawNotPresentPte := ⟨0⟩

/-- `RawNotPresentPte::from_type_flags_frame_and_counter` with its
`assert!(counter < MAX_COUNTER_VALUE)`. -/
def RawNotPresentPte.from_type_flags_frame_and_counter (pageType : NotPresentPageType)
    (flags : Nat) (frame : Frame) (counter : Nat) : Option RawNotPresentPte :=
  if counter < RawNotPresentPte.MAX_COUNTER_VALUE then
    some ⟨frame.physicalAddress ||| flags ||| (pageType.toNat <<< RawNotPresentPte.TYPE_SHIFT)
      ||| (counter <<< RawNotPresentPte.COUNTER_SHIFT)⟩
  else
    none

def RawNotPresentPte.from_type (pageType : NotPresentPageType) : Option RawNotPresentPte :=
  RawNotPresentPte.from_type_flags_frame_and_counter pageType 0 (Frame.containingAddress 0) 0

def RawNotPresentPte.from_type_and_counter (pageType : NotPresentPageType) (counter : Nat) :
    Option RawNotPresentPte :=
  RawNotPresentPte.from_type_flags_frame_and_counter pageType 0 (Frame.containingAddress 0) counter

/-- `RawNotPresentPte::page_type`: `NotPresentPageType::from_u8(((bits >> TYPE_SHIFT)
& TYPE_BITS) as u8).expect(..)`; the `expect` panic is `none`. -/
def RawNotPresentPte.page_type (q : RawNotPresentPte) : Option NotPresentPageType :=
  match ((q.bits >>> RawNotPresentPte.TYPE_SHIFT) &&& RawNotPresentPte.TYPE_BITS) % 256 with
  | 0 => some .Unused
  | 1 => some .GuardPage
  | 2 => some .RegionHeader
  | _ => none

def RawNotPresentPte.counter (q : RawNotPresentPte) : Nat :=
  (q.bits &&& RawNotPresentPte.COUNTER_BITS) >>> RawNotPresentPte.COUNTER_SHIFT

/-- `impl From<RawNotPresentPte> for RawPte`: keeps the raw bits. -/
def RawNotPresentPte.toRawPte (q : RawNotPresentPte) : RawPte := ⟨q.bits⟩

/-- `RawPte::not_present()` (`TryFrom<RawPte> for RawNotPresentPte`). -/
def RawPte.not_present (r : RawPte) : Option RawNotPresentPte :=
  if r.is_present then none else some ⟨r.bits⟩

/-- `KernelStackGuardPagePte` encodes as `RawNotPresentPte::from_type(GuardPage)`. -/
def KernelStackGuardPagePte.toNotPresent : Option RawNotPresentPte :=
  RawNotPresentPte.from_type .GuardPage

/-! ## The spec-described `PresentRegionHeaderPte` wrapper

Modelled from the spec: the typed wrapper `PresentRegionHeaderPte` named in spec
sections 4.B and 8 does not exist under src/ (only the raw counter machinery in
src/paging/page_entry.rs does).  Per the spec it is a present PTE carrying the
REGION_HEADER tag whose counter field holds the region size in chunks;
`new(n)` builds it through `RawPresentPte::from_frame_flags_and_counter` and
`size_in_chunks()` reads the counter field back. -/

structure PresentRegionHeaderPte where
  pte : RawPresentPte
deriving DecidableEq, Repr

def PresentRegionHeaderPte.new (n : Nat) : Option PresentRegionHeaderPte :=
  (RawPresentPte.from_frame_flags_and_counter (Frame.containingAddress 0)
    PresentPageFlags.REGION_HEADER n).map PresentRegionHeaderPte.mk

def PresentRegionHeaderPte.size_in_chunks (p : PresentRegionHeaderPte) : Nat :=
  p.pte.counter

/-! ## Bit-level helper lemmas -/

theorem lt_two_pow_testBit_eq_false {x i : Nat} (h : x < 2 ^ i) : x.testBit i = false := by
  rcases Nat.lt_or_ge x (2 ^ i) with h2 | h2
  · exact Nat.testBit_lt_two_pow h
  · omega

/-- Round-trip of the 11-bit counter field: writing `n` into bits 52..62 on top of
any value `low` confined to the low 52 bits, then masking and shifting back,
recovers `n`. -/
theorem counter_field_roundtrip (low n : Nat) (hlow : low < 2 ^ 52) (hn : n < 2048) :
    ((low ||| (n <<< 52)) &&& (2047 <<< 52)) >>> 52 = n := by
  apply Nat.eq_of_testBit_eq
  intro i
  rw [Nat.testBit_shiftRight, Nat.testBit_land, Nat.testBit_lor,
    Nat.testBit_shiftLeft, Nat.testBit_shiftLeft]
  have hlowbit : low.testBit (52 + i) = false := by
    apply lt_two_pow_testBit_eq_false
    calc low < 2 ^ 52 := hlow
    _ ≤ 2 ^ (52 + i) := Nat.pow_le_pow_right (by norm_num) (by omega)
  have h52 : 52 ≤ 52 + i := by omega
  rcases Nat.lt_or_ge i 11 with hi | hi
  · have h2047 : Nat.testBit 2047 (52 + i - 52) = true := by
      simp only [Nat.add_sub_cancel_left]
      interval_cases i <;> decide
    simp only [Nat.add_sub_cancel_left] at h2047
    simp [hlowbit, h52, h2047, Nat.add_sub_cancel_left]
  · have h2047 : Nat.testBit 2047 (52 + i - 52) = false := by
      simp only [Nat.add_sub_cancel_left]
      apply lt_two_pow_testBit_eq_false
      calc (2047 : Nat) < 2 ^ 11 := by norm_num
      _ ≤ 2 ^ i := Nat.pow_le_pow_right (by norm_num) hi
    have hnbit : n.testBit (52 + i - 52) = false := by
      simp only [Nat.add_sub_cancel_left]
      apply lt_two_pow_testBit_eq_false
      calc n < 2048 := hn
      _ ≤ 2 ^ i := by
        have : (2048 : Nat) = 2 ^ 11 := by norm_num
        rw [this]
        exact Nat.pow_le_pow_right (by norm_num) hi
    simp only [Nat.add_sub_cancel_left] at h2047 hnbit
    simp [hlowbit, h52, h2047, hnbit]

/-! ## Claim C6 -/

/-- C6: for every 64-bit raw PTE value `r`, exactly one of `present()` and
`not_present()` succeeds, decided by bit 0 of `r`, and converting the decoded
value back into a `RawPte` yields exactly the original raw bits. -/
theorem pte_decode_exclusive_and_roundtrip (r : Nat) (_h : r < 2 ^ 64) :
    ((RawPte.mk r).present.isSome ↔ r.testBit 0)
  ∧ ((RawPte.mk r).not_present.isSome ↔ ¬ r.testBit 0)
  ∧ (∀ p : RawPresentPte, (RawPte.mk r).present = some p → p.toRawPte = RawPte.mk r)
  ∧ (∀ q : RawNotPresentPte, (RawPte.mk r).not_present = some q → q.toRawPte = RawPte.mk r) := by
  refine ⟨?_, ?_, ?_, ?_⟩
  · by_cases hb : r.testBit 0 <;>
      simp [RawPte.present, RawPte.is_present, hb]
  · by_cases hb : r.testBit 0 <;>
      simp [RawPte.not_present, RawPte.is_present, hb]
  · intro p hp
    by_cases hb : r.testBit 0
    · simp only [RawPte.present, RawPte.is_present, hb, if_pos] at hp
      simp at hp
      rw [← hp]
      rfl
    · simp [RawPte.present, RawPte.is_present, hb] at hp
  · intro q hq
    by_cases hb : r.testBit 0
    · simp [RawPte.not_present, RawPte.is_present, hb] at hq
    · simp only [RawPte.not_present, RawPte.is_present, hb] at hq
      simp at hq
      rw [← hq]
      rfl

/-- Witness for C6 at the concrete raw value 3 (present bit set). -/
theorem pte_decode_exclusive_and_roundtrip_witness :
    (RawPte.mk 3).present.isSome = true :=
  ((pte_decode_exclusive_and_roundtrip 3 (by norm_num)).1).mpr (by decide)

/-! ## Claim C7 -/

/-- C7 counterexample: the claim range 1 ≤ n ≤ 2048 fails at n = 2048, where
`PresentRegionHeaderPte::new` hits the assert `counter < MAX_COUNTER_VALUE`
(2048) and panics instead of yielding a PTE with `size_in_chunks() == 2048`. -/
theorem presentRegionHeaderPte_new_2048_panics :
    PresentRegionHeaderPte.new 2048 = none := by
  decide

/-- C7 amended: for every n with 1 ≤ n ≤ 2047 (the maximum counter value),
`PresentRegionHeaderPte::new(n).size_in_chunks() == n`. -/
theorem presentRegionHeaderPte_counter_roundtrip (n : Nat) (h1 : 1 ≤ n) (h2 : n ≤ 2047) :
    (PresentRegionHeaderPte.new n).map PresentRegionHeaderPte.size_in_chunks = some n := by
  have hn : n < RawPresentPte.MAX_COUNTER_VALUE := by
    simp only [RawPresentPte.MAX_COUNTER_VALUE]
    omega
  simp only [PresentRegionHeaderPte.new, RawPresentPte.from_frame_flags_and_counter,
    hn, if_pos, Option.map_some, Option.map]
  congr 1
  show RawPresentPte.counter ⟨_⟩ = n
  simp only [RawPresentPte.counter, RawPresentPte.COUNTER_BITS, RawPresentPte.COUNTER_SHIFT]
  have hframe : (Frame.containingAddress 0).physicalAddress = 0 := by decide
  rw [hframe]
  have h513 : 0 ||| PresentPageFlags.REGION_HEADER ||| 1 = 513 := by decide
  have hmask : (0x7ff0000000000000 : Nat) = 2047 <<< 52 := by decide
  rw [h513, hmask]
  exact counter_field_roundtrip 513 n (by norm_num) (by omega)

/-- Witness for the amended C7 at n = 7. -/
theorem presentRegionHeaderPte_counter_roundtrip_witness :
    (PresentRegionHeaderPte.new 7).map PresentRegionHeaderPte.size_in_chunks = some 7 :=
  presentRegionHeaderPte_counter_roundtrip 7 (by norm_num) (by norm_num)

/-! ## InitMutex (src/init_mutex.rs)

`InitMutex<T>` wraps `Mutex<Option<T>>`.  Lock acquisition of the spin mutex is
not modelled (single-threaded semantics); the observable state is the stored
`Option<T>`.  Operations that can panic return `Option _` (`none` = panic);
`init` has no panic path in the source (`*self.lock.lock() = Some(t)` simply
overwrites) but is given the same signature so that the absence of a panic is
part of the statement rather than of the encoding. -/

structure InitMutex (T : Type) where
  lock : Option T
deriving DecidableEq, Repr

def InitMutex.new (T : Type) : InitMutex T := ⟨none⟩

/-- `InitMutex::init`: overwrites the slot with `Some(t)`; never panics. -/
def InitMutex.init {T : Type} (_m : InitMutex T) (t : T) : Option (InitMutex T) :=
  some ⟨some t⟩

/-- `InitMutexGuard` as handed out by `InitMutex::lock`: wraps the stored option.
`lock` itself cannot panic. -/
structure InitMutexGuard (T : Type) where
  guard : Option T
deriving DecidableEq, Repr

def InitMutex.lockGuard {T : Type} (m : InitMutex T) : InitMutexGuard T :=
  ⟨m.lock⟩

/-- `Deref for InitMutexGuard`: `guard.as_ref().expect("InitMutexGuard has not
been initialized")`; the `expect` panic is `none`. -/
def InitMutexGuard.deref {T : Type} (g : InitMutexGuard T) : Option T :=
  g.guard

/-! ## Claim C8 -/

/-- C8 counterexample: calling `init` a second time does not panic; it returns
normally and silently replaces the stored value (here 1 is replaced by 2).  This
contradicts the claim that a second `init` panics. -/
theorem initMutex_double_init_returns :
    ((InitMutex.new Nat).init 1).bind (fun m => m.init 2) = some ⟨some 2⟩ := by
  decide

/-- C8 amended: `init` never panics and a repeated `init` silently replaces the
stored value; `lock` before `init` succeeds, but dereferencing the returned
guard panics exactly when `init` has never been called, and yields the stored
value after `init`. -/
theorem initMutex_init_and_lock_behavior (T : Type) (t1 t2 : T) :
    (((InitMutex.new T).init t1).bind (fun m => m.init t2) = some ⟨some t2⟩)
  ∧ ((InitMutex.new T).lockGuard.deref = none)
  ∧ (∀ m : InitMutex T, ∀ u : T, m.init u = some ⟨some u⟩)
  ∧ (∀ u : T, (InitMutex.mk (some u)).lockGuard.deref = some u) := by
  refine ⟨rfl, rfl, fun m u => rfl, fun u => rfl⟩

/-! ## Mapper state (src/paging/mapper.rs)

The level-1 page-table slots touched by the kernel-heap region code are modelled
as an association list from page VA to raw PTE bits (an absent key holds 0, the
`RawPte::unused()` value).  The four-level walk of `create_pte_mut_for_address`
is not tracked: intermediate-table creation is taken to succeed, so the model
exposes exactly the L1 slot each operation reads and writes.  The physical frame
allocator is modelled as the stack of free frame indices; `allocate_kernel_frame`
and `allocate_user_frame` differ only in zone preference in the source, which is
immaterial here, so both draw from the single pool. -/

structure PagingState where
  pt : List (Nat × Nat)
  freeFrames : List Nat
deriving DecidableEq, Repr

def ptGet (pt : List (Nat × Nat)) (a : Nat) : Nat :=
  match pt.find? (fun e => e.1 == a) with
  | some e => e.2
  | none => 0

def ptSet (pt : List (Nat × Nat)) (a v : Nat) : List (Nat × Nat) :=
  (a, v) :: pt

def PagingState.allocateFrame : PagingState → Option (Nat × PagingState)
  | ⟨_, []⟩ => none
  | ⟨pt, f :: rest⟩ => some (f, ⟨pt, rest⟩)

def PagingState.deallocateFrame (ps : PagingState) (f : Nat) : PagingState :=
  ⟨ps.pt, f :: ps.freeFrames⟩

/-- `Mapper::map_to`: after the walk, `assert_eq!(*pte, RawPte::unused())` (and
`assert!(pte.is_unused())`) guard the slot, then the present PTE built by
`RawPresentPte::from_frame_and_flags(frame, flags)` is written.  The assert
panic is `none`. -/
def Mapper.map_to (ps : PagingState) (page : Nat) (frame : Frame) (flags : Nat) :
    Option PagingState :=
  if ptGet ps.pt page = 0 then
    match RawPresentPte.from_frame_and_flags frame flags with
    | some p => some { ps with pt := ptSet ps.pt page p.bits }
    | none => none
  else
    none

/-- `Mapper::set_not_present`: same `assert_eq!(*pte, RawPte::unused())` guard,
then the caller-supplied not-present PTE is written. -/
def Mapper.set_not_present (ps : PagingState) (page : Nat) (npp : RawNotPresentPte) :
    Option PagingState :=
  if ptGet ps.pt page = 0 then
    some { ps with pt := ptSet ps.pt page npp.bits }
  else
    none

/-- Modelled from the spec: `page_table.unmap(page_addr, free_pages)` is called by
src/paging/heap_region.rs but the two-argument `unmap` is not under src/
(mapper.rs only carries the always-freeing `unmap_and_free`).  Per spec 4.B/4.C,
unmapping returns the PTE's frame to the frame allocator exactly when
`free_pages` is set (Heap/KernelStack regions; PhysicalMapping frames belong to
the device) and writes the unused not-present PTE; the structure mirrors
`unmap_and_free`. -/
def Mapper.unmap (ps : PagingState) (page : Nat) (freePages : Bool) : PagingState :=
  let e := ptGet ps.pt page
  let ps1 :=
    if e.testBit 0 && freePages then
      ps.deallocateFrame ((e &&& 0x000ffffffffff000) / PAGE_SIZE)
    else ps
  { ps1 with pt := ptSet ps1.pt page 0 }

/-! ## Claim C10 -/

/-- C10: `map_to` and `set_not_present` succeed exactly when the existing
level-1 PTE at the VA is the all-zero unused entry and panic otherwise; in
particular a slot holding any non-zero typed not-present PTE — such as the
kernel-stack GuardPage marker, which is unmapped but non-zero — makes `map_to`
panic instead of returning an error. -/
theorem mapper_requires_unused_slot (ps : PagingState) (page : Nat) (frame : Frame)
    (flags : Nat) (npp : RawNotPresentPte) :
    ((Mapper.map_to ps page frame flags).isSome ↔ ptGet ps.pt page = 0)
  ∧ ((Mapper.set_not_present ps page npp).isSome ↔ ptGet ps.pt page = 0)
  ∧ (∀ q : RawNotPresentPte, ptGet ps.pt page = q.bits → q.bits ≠ 0 →
      Mapper.map_to ps page frame flags = none
      ∧ Mapper.set_not_present ps page npp = none)
  ∧ (∀ g : RawNotPresentPte, KernelStackGuardPagePte.toNotPresent = some g →
      ptGet ps.pt page = g.bits → Mapper.map_to ps page frame flags = none) := by
  refine ⟨?_, ?_, ?_, ?_⟩
  · by_cases hz : ptGet ps.pt page = 0
    · simp [Mapper.map_to, hz, RawPresentPte.from_frame_and_flags,
        RawPresentPte.from_frame_flags_and_counter, RawPresentPte.MAX_COUNTER_VALUE]
    · simp [Mapper.map_to, hz]
  · by_cases hz : ptGet ps.pt page = 0
    · simp [Mapper.set_not_present, hz]
    · simp [Mapper.set_not_present, hz]
  · intro q hq hne
    constructor
    · simp [Mapper.map_to, hq, hne]
    · simp [Mapper.set_not_present, hq, hne]
  · intro g hg hbits
    have hgbits : g.bits = 2 := by
      have : KernelStackGuardPagePte.toNotPresent = some ⟨2⟩ := by decide
      rw [this] at hg
      cases hg
      rfl
    simp [Mapper.map_to, hbits, hgbits]

/-- Witness for C10: on a concrete state whose slot at VA 4096 holds the
GuardPage marker PTE (raw bits 2), `map_to` panics. -/
theorem mapper_requires_unused_slot_witness :
    Mapper.map_to ⟨[(4096, 2)], []⟩ 4096 (Frame.fromIndex 3) PresentPageFlags.WRITABLE = none :=
  (mapper_requires_unused_slot ⟨[(4096, 2)], []⟩ 4096 (Frame.fromIndex 3)
    PresentPageFlags.WRITABLE ⟨0⟩).2.2.2 ⟨2⟩ (by decide) (by decide)

/-! ## Region manager (src/paging/heap_region.rs)

The region manager's map is kept in `RegionMapPage`s: pages of `RegionMapEntry
{ base, limit, region_type: Option<RegionType> }` chained through a header, with
`shuffle_entries_up`/`shuffle_entries_down` moving entries across page
boundaries (allocating/freeing map pages as needed).  The typed entries always
form a contiguous prefix of that chain in order, terminated by the first
`None`-typed slot; the model represents exactly that sequence as a Lean list
(the list's end is the `None` terminator), which the page-granular shuffles
preserve.  The map-page storage frames are not tracked; `print_entries` is
logging only and is omitted. -/

def PhysicalMappingFlags.UNCACHED : Nat := 1
def PhysicalMappingFlags.READ_ONLY : Nat := 2

/-- `From<PhysicalMappingFlags> for PresentPageFlags`. -/
def physicalMappingFlagsToPresent (pmf : Nat) : Nat :=
  let ret := PresentPageFlags.GLOBAL ||| PresentPageFlags.NO_EXECUTE
  let ret :=
    if pmf &&& PhysicalMappingFlags.READ_ONLY = 0 then ret ||| PresentPageFlags.WRITABLE
    else ret
  if pmf &&& PhysicalMappingFlags.UNCACHED ≠ 0 then ret ||| PresentPageFlags.NO_CACHE
  else ret

structure PhysicalMapping where
  physicalAddress : Nat
  flags : Nat
deriving DecidableEq, Repr

inductive RegionType where
  | Free
  | Heap
  | KernelStack
  | PhysicalMapping (pm : RustKern.PhysicalMapping)
deriving DecidableEq, Repr

structure RegionMapEntry where
  base : Nat
  limit : Nat
  regionType : RegionType
deriving DecidableEq, Repr

def RegionMapEntry.size (e : RegionMapEntry) : Nat := e.limit - e.base

structure RegionInfo where
  start_va : Nat
  limit_va : Nat
deriving DecidableEq, Repr

def RegionInfo.size (i : RegionInfo) : Nat := i.limit_va - i.start_va

def RegionMapEntry.region_info (e : RegionMapEntry) : RegionInfo := ⟨e.base, e.limit⟩

/-- The errors of `paging::MemoryError` reachable from the region manager. -/
inductive MemoryError where
  | OutOfMemory
  | NoRegionAddressSpaceAvailable
deriving DecidableEq, Repr

/-- Rust `usize::is_power_of_two`. -/
def isPow2 (n : Nat) : Bool := n != 0 && (n &&& (n - 1)) == 0

/-- `align_down(addr, align)` from heap_region.rs: `addr & !(align - 1)` on usize
for power-of-two `align` (the 64-bit complement of `align - 1` is
`2 ^ 64 - align`); `align = 0` returns `addr`; any other align is
`panic!("align must be a power of 2")`, modelled as `none`. -/
def alignDown (addr align : Nat) : Option Nat :=
  if isPow2 align then some (addr &&& (2 ^ 64 - align))
  else if align = 0 then some addr
  else none

/-- `align_up(addr, align) = align_down(addr + align - 1, align)`. -/
def alignUp (addr align : Nat) : Option Nat :=
  alignDown (addr + align - 1) align

/-- The `debug_assert_eq!(a, align_up(a, PAGE_SIZE))` check. -/
def pageAlignedUp (addr : Nat) : Bool := alignUp addr PAGE_SIZE == some addr

/-- The `debug_assert_eq!(a, align_down(a, PAGE_SIZE))` check. -/
def pageAlignedDown (addr : Nat) : Bool := alignDown addr PAGE_SIZE == some addr

/-- Flags used by `map_nonpaged_impl` for every heap / kernel-stack page. -/
def heapPageFlags : Nat :=
  PresentPageFlags.WRITABLE ||| PresentPageFlags.GLOBAL ||| PresentPageFlags.NO_EXECUTE

/-- Loop body of `map_nonpaged_impl`: map `count` pages ascending from `base`,
allocating a user frame for each.  Returns the paging state together with the
`Result`; `none` is a panic inside `map_to`. -/
def mapNonpagedGo (ps : PagingState) (base : Nat) :
    Nat → Option (PagingState × Except MemoryError Unit)
  | 0 => some (ps, .ok ())
  | Nat.succ n =>
    match ps.allocateFrame with
    | none => some (ps, .error .OutOfMemory)
    | some (f, ps1) =>
      match Mapper.map_to ps1 base (Frame.fromIndex f) heapPageFlags with
      | none => none
      | some ps2 => mapNonpagedGo ps2 (base + PAGE_SIZE) n

/-- Loop of `unmap_nonpaged`. -/
def unmapNonpagedGo (freePages : Bool) (ps : PagingState) (base : Nat) :
    Nat → PagingState
  | 0 => ps
  | Nat.succ n => unmapNonpagedGo freePages (Mapper.unmap ps base freePages) (base + PAGE_SIZE) n

namespace RegionManager

/-- `RegionManager::unmap_nonpaged` with its debug asserts. -/
def unmap_nonpaged (ps : PagingState) (base limit : Nat) (freePages : Bool) :
    Option PagingState :=
  if limit > base ∧ pageAlignedUp base ∧ pageAlignedDown limit then
    some (unmapNonpagedGo freePages ps base ((limit - base) / PAGE_SIZE))
  else
    none

/-- `RegionManager::map_nonpaged_impl`: on an allocation error the pages mapped
so far (the `unmap_base..unmap_limit` span) are unmapped and the error is
propagated. -/
def map_nonpaged_impl (ps : PagingState) (base limit unmapBase unmapLimit : Nat) :
    Option (PagingState × Except MemoryError Unit) :=
  match mapNonpagedGo ps base ((limit - base) / PAGE_SIZE) with
  | none => none
  | some (ps1, .ok ()) => some (ps1, .ok ())
  | some (ps1, .error e) =>
    match unmap_nonpaged ps1 unmapBase unmapLimit true with
    | none => none
    | some ps2 => some (ps2, .error e)

/-- `RegionManager::map_nonpaged` with its debug asserts. -/
def map_nonpaged (ps : PagingState) (base limit : Nat) :
    Option (PagingState × Except MemoryError Unit) :=
  if limit > base ∧ pageAlignedUp base ∧ pageAlignedDown limit then
    map_nonpaged_impl ps base limit base limit
  else
    none

/-- `RegionManager::map_kernel_stack`: `debug_assert!(limit > base + PAGE_SIZE)`,
alignment asserts, guard page via `set_not_present`, then the remaining pages
through `map_nonpaged_impl`. -/
def map_kernel_stack (ps : PagingState) (base limit : Nat) :
    Option (PagingState × Except MemoryError Unit) :=
  if limit > base + PAGE_SIZE ∧ pageAlignedUp base ∧ pageAlignedDown limit then
    match KernelStackGuardPagePte.toNotPresent with
    | none => none
    | some g =>
      match Mapper.set_not_present ps base g with
      | none => none
      | some ps1 => map_nonpaged_impl ps1 (base + PAGE_SIZE) limit base limit
  else
    none

/-- Loop of `RegionManager::map_physical_memory`: maps `count` pages to the
device frames; errors of `map_to` can only come from the (unmodelled) table
walk, so only the panic case remains. -/
def mapPhysGo (flags : Nat) (ps : PagingState) (pageAddr physAddr : Nat) :
    Nat → Option (PagingState × Except MemoryError Unit)
  | 0 => some (ps, .ok ())
  | Nat.succ n =>
    match Mapper.map_to ps pageAddr (Frame.containingAddress physAddr) flags with
    | none => none
    | some ps1 => mapPhysGo flags ps1 (pageAddr + PAGE_SIZE) (physAddr + PAGE_SIZE) n

/-- `RegionManager::map_physical_memory` with its debug asserts. -/
def map_physical_memory (ps : PagingState) (pm : RustKern.PhysicalMapping)
    (base limit : Nat) : Option (PagingState × Except MemoryError Unit) :=
  if limit > base ∧ pageAlignedUp base ∧ pageAlignedDown limit then
    mapPhysGo (physicalMappingFlagsToPresent pm.flags) ps base pm.physicalAddress
      ((limit - base) / PAGE_SIZE)
  else
    none

/-- `RegionManager::map_region`: the `debug_assert_eq!(entry.region_type, Free)`
and the dispatch on the requested type (`Free` is `panic!`). -/
def map_region (ps : PagingState) (e : RegionMapEntry) (ty : RegionType) :
    Option (PagingState × Except MemoryError Unit) :=
  if e.regionType = .Free then
    match ty with
    | .Heap => map_nonpaged ps e.base e.limit
    | .KernelStack => map_kernel_stack ps e.base e.limit
    | .PhysicalMapping pm => map_physical_memory ps pm e.base e.limit
    | .Free => none
  else
    none

/-- `RegionManager::unmap_region`: `debug_assert_ne!(.., Free)` and the dispatch
(`free_pages` is true for Heap/KernelStack, false for PhysicalMapping). -/
def unmap_region (ps : PagingState) (e : RegionMapEntry) : Option PagingState :=
  match e.regionType with
  | .Heap => unmap_nonpaged ps e.base e.limit true
  | .KernelStack => unmap_nonpaged ps e.base e.limit true
  | .PhysicalMapping _ => unmap_nonpaged ps e.base e.limit false
  | .Free => none

/-- `RegionManager::allocate_first_fit` over the flattened entry sequence,
with the closure from `allocate_region` (its `debug_assert`s hold by
construction: the entry passed on has exactly `required_size` bytes and type
Free) inlined as `map_region`.  In the split case the pre-allocated table frame
feeds `shuffle_entries_up` only when a fresh map page is needed (storage not
modelled) and is freed back otherwise; the restore path on a mapper error undoes
the limit change and frees the table frame, exactly as the source.  Returns the
paging state, the updated entry sequence and the `Result`. -/
def allocateFirstFit (ps : PagingState) (entries : List RegionMapEntry)
    (requiredSize : Nat) (ty : RegionType) :
    Option (PagingState × List RegionMapEntry × Except MemoryError RegionInfo) :=
  match entries with
  | [] => some (ps, [], .error .NoRegionAddressSpaceAvailable)
  | e :: rest =>
    if e.regionType = .Free ∧ requiredSize < e.size then
      match ps.allocateFrame with
      | none => some (ps, e :: rest, .error .OutOfMemory)
      | some (tf, ps1) =>
        let eShrunk : RegionMapEntry := ⟨e.base, e.base + requiredSize, e.regionType⟩
        match map_region ps1 eShrunk ty with
        | none => none
        | some (ps2, .error er) => some (ps2.deallocateFrame tf, e :: rest, .error er)
        | some (ps2, .ok ()) =>
          some (ps2.deallocateFrame tf,
            ⟨e.base, e.base + requiredSize, ty⟩ :: ⟨e.base + requiredSize, e.limit, .Free⟩ :: rest,
            .ok ⟨e.base, e.base + requiredSize⟩)
    else if e.regionType = .Free ∧ e.size = requiredSize then
      match map_region ps e ty with
      | none => none
      | some (ps1, .error er) => some (ps1, e :: rest, .error er)
      | some (ps1, .ok ()) =>
        some (ps1, ⟨e.base, e.limit, ty⟩ :: rest, .ok ⟨e.base, e.limit⟩)
    else
      match allocateFirstFit ps rest requiredSize ty with
      | none => none
      | some (ps1, l, r) => some (ps1, e :: l, r)

/-- The shared tail of `deallocate_recurse_thing` once the region to drop has
been located (`drop_region_info = Some((j, lead_bytes))`): the asserts on the
dropped entry, `unmap_region`, the tail merge with a following Free entry
(removed by `shuffle_entries_down`), and the final header rewrite
(`base -= lead_bytes; limit += tail_bytes; type = Free`). -/
def deallocDrop (ps : PagingState) (e : RegionMapEntry) (rest : List RegionMapEntry)
    (leadBytes : Nat) (info : RegionInfo) :
    Option (PagingState × List RegionMapEntry) :=
  if e.regionType ≠ .Free ∧ e.limit = info.limit_va then
    match unmap_region ps e with
    | none => none
    | some ps1 =>
      match rest with
      | e2 :: rest2 =>
        if e2.regionType = .Free then
          some (ps1, ⟨e.base - leadBytes, e.limit + e2.size, .Free⟩ :: rest2)
        else
          some (ps1, ⟨e.base - leadBytes, e.limit, .Free⟩ :: e2 :: rest2)
      | [] => some (ps1, [⟨e.base - leadBytes, e.limit, .Free⟩])
  else none

/-- `RegionManager::deallocate_recurse_thing` over the flattened entry sequence.
Scanning past the typed entries fires the `is_some` assert (or the missing
next-page unwrap), so the empty list is a panic; the lead-merge case absorbs an
immediately preceding Free entry (`entries[j] = entries[j+1]` plus
`shuffle_entries_down`), and when no following typed entry exists there the
later `unwrap` of the `None` type panics. -/
def deallocateRecurse (ps : PagingState) (entries : List RegionMapEntry)
    (info : RegionInfo) : Option (PagingState × List RegionMapEntry) :=
  match entries with
  | [] => none
  | e :: rest =>
    if e.base ≤ info.start_va then
      if e.limit = info.start_va ∧ e.regionType = .Free then
        match rest with
        | [] => none
        | e2 :: rest2 => deallocDrop ps e2 rest2 e.size info
      else if e.base = info.start_va then
        deallocDrop ps e rest 0 info
      else
        match deallocateRecurse ps rest info with
        | none => none
        | some (ps1, l) => some (ps1, e :: l)
    else none

end RegionManager

/-- The region-manager state: the flattened entry sequence plus the paging /
frame state the mapper mutates (the latter is global in the source; it is
threaded explicitly here). -/
structure RMState where
  entries : List RegionMapEntry
  paging : PagingState
deriving DecidableEq, Repr

/-- `RegionManager::new(base, limit)`: a single Free entry covering the range;
no page-table entry is touched. -/
def RegionManager.newEntries (base limit : Nat) : List RegionMapEntry :=
  [⟨base, limit, .Free⟩]

/-- `heap_region::init` builds the singleton manager over the given paging
state. -/
def RegionManager.initState (base limit : Nat) (ps : PagingState) : RMState :=
  ⟨RegionManager.newEntries base limit, ps⟩

/-- The `Region` handle (`sub_region_offset`/`sub_region_length` support
`apply_offset` for physical mappings). -/
structure Region where
  regionInfo : RegionInfo
  subRegionOffset : Nat
  subRegionLength : Nat
deriving DecidableEq, Repr

def Region.new (info : RegionInfo) : Region := ⟨info, 0, info.size⟩

def Region.start (r : Region) : Nat := r.regionInfo.start_va + r.subRegionOffset

def Region.size (r : Region) : Nat := r.subRegionLength

def Region.limit (r : Region) : Nat := r.start + r.size

/-- `RegionManager::allocate_region(pages, region_type)`. -/
def RegionManager.allocate_region (st : RMState) (pages : Nat) (ty : RegionType) :
    Option (RMState × Except MemoryError Region) :=
  match RegionManager.allocateFirstFit st.paging st.entries (pages * PAGE_SIZE) ty with
  | none => none
  | some (ps, l, .error e) => some (⟨l, ps⟩, .error e)
  | some (ps, l, .ok info) => some (⟨l, ps⟩, .ok (Region.new info))

/-- `RegionManager::deallocate_region`, i.e. `Drop for Region`. -/
def RegionManager.deallocate_region (st : RMState) (info : RegionInfo) :
    Option RMState :=
  (RegionManager.deallocateRecurse st.paging st.entries info).map
    (fun p => ⟨p.2, p.1⟩)

/-- `KernelStack` (src/paging/kernel_stack.rs) wraps the region;
`stack_top()` is the region limit. -/
structure KernelStack where
  region : Region
deriving DecidableEq, Repr

def KernelStack.stack_top (k : KernelStack) : Nat := k.region.limit

/-- `heap_region::allocate_region(pages)` (Heap type). -/
def allocate_region (st : RMState) (pages : Nat) :
    Option (RMState × Except MemoryError Region) :=
  RegionManager.allocate_region st pages .Heap

/-- `heap_region::allocate_kernel_stack(pages)`. -/
def allocate_kernel_stack (st : RMState) (pages : Nat) :
    Option (RMState × Except MemoryError KernelStack) :=
  match RegionManager.allocate_region st pages .KernelStack with
  | none => none
  | some (st1, .error e) => some (st1, .error e)
  | some (st1, .ok r) => some (st1, .ok ⟨r⟩)

def KERNEL_HEAP_BASE : Nat := 0xffffff8000000000
def KERNEL_HEAP_LIMIT : Nat := 0xffffff80c0000000

/-- The spec's chunk unit: 16 pages = 64 KiB (no chunk constant exists in the
code; this is the unit the claim measures sizes in). -/
def CHUNK_SIZE : Nat := 16 * PAGE_SIZE

/-! ### Alignment lemmas -/

theorem mask_two_pow (a k : Nat) (hk : k ≤ 64) (ha : a < 2 ^ 64) :
    a &&& (2 ^ 64 - 2 ^ k) = 2 ^ k * (a / 2 ^ k) := by
  have hsplit : (2 : Nat) ^ 64 - 2 ^ k = (2 ^ (64 - k) - 1) <<< k := by
    rw [Nat.shiftLeft_eq, Nat.sub_mul, one_mul, ← Nat.pow_add]
    congr 2
    omega
  have hrhs : 2 ^ k * (a / 2 ^ k) = (a >>> k) <<< k := by
    rw [Nat.shiftLeft_eq, Nat.shiftRight_eq_div_pow, Nat.mul_comm]
  rw [hsplit, hrhs]
  apply Nat.eq_of_testBit_eq
  intro i
  rw [Nat.testBit_land, Nat.testBit_shiftLeft, Nat.testBit_shiftLeft, Nat.testBit_shiftRight]
  by_cases hki : k ≤ i
  · have hik : k + (i - k) = i := by omega
    rw [hik]
    by_cases hi64 : i < 64
    · have htb : Nat.testBit (2 ^ (64 - k) - 1) (i - k) = true := by
        rw [Nat.testBit_two_pow_sub_one]
        simp only [decide_eq_true_eq]
        omega
      simp [hki, htb]
    · have hfa : a.testBit i = false :=
        lt_two_pow_testBit_eq_false
          (lt_of_lt_of_le ha (Nat.pow_le_pow_right (by norm_num) (by omega)))
      simp [hfa]
  · simp [hki]

theorem alignDown_of_aligned (a : Nat) (h4 : a % 4096 = 0) (ha : a < 2 ^ 64) :
    alignDown a PAGE_SIZE = some a := by
  have hp : isPow2 PAGE_SIZE = true := by decide
  have hmask : a &&& (2 ^ 64 - PAGE_SIZE) = a := by
    have h1 : (PAGE_SIZE : Nat) = 2 ^ 12 := by decide
    rw [h1, mask_two_pow a 12 (by norm_num) ha]
    have h2 : (2 : Nat) ^ 12 = 4096 := by norm_num
    rw [h2]
    exact Nat.mul_div_cancel' (Nat.dvd_of_mod_eq_zero h4)
  rw [alignDown, if_pos hp, hmask]

theorem alignUp_of_aligned (a : Nat) (h4 : a % 4096 = 0) (ha : a + 4095 < 2 ^ 64) :
    alignUp a PAGE_SIZE = some a := by
  have hp : isPow2 PAGE_SIZE = true := by decide
  have hps : a + PAGE_SIZE - 1 = a + 4095 := by simp [PAGE_SIZE]
  have h1 : (PAGE_SIZE : Nat) = 2 ^ 12 := by decide
  have hdiv : (a + 4095) / 4096 = a / 4096 := by
    have hq : a = 4096 * (a / 4096) :=
      (Nat.mul_div_cancel' (Nat.dvd_of_mod_eq_zero h4)).symm
    calc (a + 4095) / 4096 = (4096 * (a / 4096) + 4095) / 4096 := by rw [← hq]
    _ = a / 4096 + 4095 / 4096 := Nat.mul_add_div (by norm_num) _ _
    _ = a / 4096 := by norm_num
  have hmask : (a + 4095) &&& (2 ^ 64 - PAGE_SIZE) = a := by
    rw [h1, mask_two_pow (a + 4095) 12 (by norm_num) ha]
    have : (2 : Nat) ^ 12 = 4096 := by norm_num
    rw [this, hdiv]
    exact Nat.mul_div_cancel' (Nat.dvd_of_mod_eq_zero h4)
  rw [alignUp, hps, alignDown, if_pos hp, hmask]

theorem pageAlignedUp_of_aligned (a : Nat) (h4 : a % 4096 = 0) (ha : a + 4095 < 2 ^ 64) :
    pageAlignedUp a = true := by
  rw [pageAlignedUp, alignUp_of_aligned a h4 ha]
  simp

theorem pageAlignedDown_of_aligned (a : Nat) (h4 : a % 4096 = 0) (ha : a < 2 ^ 64) :
    pageAlignedDown a = true := by
  rw [pageAlignedDown, alignDown_of_aligned a h4 ha]
  simp

/-! ## Claim C2 -/

/-- C2 counterexample: after `RegionManager::new` over the kernel heap VA range,
the free region covering the whole range is recorded in the manager's own
`RegionMapEntry` list (bookkeeping outside the page tables), no page-table entry
has been written, and the not-present PTE at the region's base is the all-zero
Unused entry: its type is not RegionHeader and its counter is 0, not the
region's size in 64 KiB chunks (49152). -/
theorem region_map_initial_header_pte_not_region_header :
    (RegionManager.initState KERNEL_HEAP_BASE KERNEL_HEAP_LIMIT ⟨[], []⟩).entries
      = [⟨KERNEL_HEAP_BASE, KERNEL_HEAP_LIMIT, .Free⟩]
  ∧ (RegionManager.initState KERNEL_HEAP_BASE KERNEL_HEAP_LIMIT ⟨[], []⟩).paging.pt = []
  ∧ ptGet (RegionManager.initState KERNEL_HEAP_BASE KERNEL_HEAP_LIMIT ⟨[], []⟩).paging.pt
      KERNEL_HEAP_BASE = 0
  ∧ (∀ q : RawNotPresentPte,
      (RawPte.mk (ptGet (RegionManager.initState KERNEL_HEAP_BASE KERNEL_HEAP_LIMIT
          ⟨[], []⟩).paging.pt KERNEL_HEAP_BASE)).not_present = some q →
        q.page_type = some .Unused
        ∧ q.counter = 0
        ∧ q.page_type ≠ some .RegionHeader
        ∧ q.counter ≠ (KERNEL_HEAP_LIMIT - KERNEL_HEAP_BASE) / CHUNK_SIZE) := by
  refine ⟨rfl, rfl, rfl, ?_⟩
  intro q hq
  have hq0 : q = ⟨0⟩ := by
    have : (RawPte.mk 0).not_present = some ⟨0⟩ := by decide
    have h2 : ptGet (RegionManager.initState KERNEL_HEAP_BASE KERNEL_HEAP_LIMIT
        ⟨[], []⟩).paging.pt KERNEL_HEAP_BASE = 0 := rfl
    rw [h2, this] at hq
    exact (Option.some_inj.mp hq).symm
  subst hq0
  refine ⟨by decide, by decide, by decide, by decide⟩

/-- C2 amended: the region allocator keeps the region map in the manager's own
`RegionMapPage` entry list — each region's base, limit and type (hence size) is
a `RegionMapEntry` — and initialization writes no page-table entry at all: the
paging state is untouched, so the not-present PTEs of the heap range stay
exactly as they were.  (The RegionHeader tag and counter encodings exist in
page_entry.rs but the region manager never writes them.) -/
theorem region_map_kept_in_entries (base limit : Nat) (ps : PagingState) :
    (RegionManager.initState base limit ps).entries = [⟨base, limit, .Free⟩]
  ∧ (RegionManager.initState base limit ps).paging = ps
  ∧ (∀ a : Nat, ptGet (RegionManager.initState base limit ps).paging.pt a = ptGet ps.pt a)
  ∧ ((RegionManager.initState base limit ps).entries.map RegionMapEntry.size
      = [limit - base]) :=
  ⟨rfl, rfl, fun _ => rfl, rfl⟩

/-! ## Claim C9 -/

/-- No `allocate_first_fit` call for a one-page (4096-byte) kernel-stack region
can return Ok: every candidate free entry leads into `map_kernel_stack` with
`limit = base + PAGE_SIZE`, whose `debug_assert!(limit > base + PAGE_SIZE)`
fires. -/
theorem allocateFirstFit_kernel_stack_one_page (l : List RegionMapEntry) :
    ∀ ps ps1 l1 info,
      RegionManager.allocateFirstFit ps l 4096 .KernelStack ≠ some (ps1, l1, .ok info) := by
  induction l with
  | nil =>
    intro ps ps1 l1 info h
    simp [RegionManager.allocateFirstFit] at h
  | cons e rest ih =>
    intro ps ps1 l1 info h
    rw [RegionManager.allocateFirstFit] at h
    by_cases h1 : e.regionType = .Free ∧ 4096 < e.size
    · rw [if_pos h1] at h
      cases hall : ps.allocateFrame with
      | none => rw [hall] at h; simp at h
      | some p =>
        obtain ⟨tf, ps2⟩ := p
        have hmr : RegionManager.map_region ps2 ⟨e.base, e.base + 4096, e.regionType⟩
            .KernelStack = none := by
          rw [RegionManager.map_region]
          simp only [h1.1, if_pos]
          rw [RegionManager.map_kernel_stack]
          have hno : ¬ (e.base + 4096 > e.base + PAGE_SIZE ∧ pageAlignedUp e.base
              ∧ pageAlignedDown (e.base + 4096)) := by
            simp [PAGE_SIZE]
          rw [if_neg hno]
        simp only [hall, hmr] at h
        exact Option.noConfusion h
    · rw [if_neg h1] at h
      by_cases h2 : e.regionType = .Free ∧ e.size = 4096
      · rw [if_pos h2] at h
        have hlim : e.limit = e.base + 4096 := by
          have := h2.2
          rw [RegionMapEntry.size] at this
          omega
        have hmr : RegionManager.map_region ps e .KernelStack = none := by
          rw [RegionManager.map_region]
          simp only [h2.1, if_pos]
          rw [RegionManager.map_kernel_stack, hlim]
          have hno : ¬ (e.base + 4096 > e.base + PAGE_SIZE ∧ pageAlignedUp e.base
              ∧ pageAlignedDown (e.base + 4096)) := by
            simp [PAGE_SIZE]
          rw [if_neg hno]
        simp only [hmr] at h
        exact Option.noConfusion h
      · rw [if_neg h2] at h
        cases hrec : RegionManager.allocateFirstFit ps rest 4096 .KernelStack with
        | none =>
          simp only [hrec] at h
          exact Option.noConfusion h
        | some p =>
          obtain ⟨ps3, l3, r3⟩ := p
          simp only [hrec, Option.some_inj, Prod.mk.injEq] at h
          obtain ⟨-, -, hr⟩ := h
          cases r3 with
          | ok info3 => exact ih ps ps3 l3 info3 hrec
          | error e3 => exact Except.noConfusion hr

/-- C9: `allocate_kernel_stack(1)` never produces a kernel stack, for any region
manager state: either no free region exists (an error is returned) or the
one-page region reaches `map_kernel_stack`, whose guard-page size assertion
(`limit > base + PAGE_SIZE`) fires because one page leaves no mapped page above
the guard page. -/
theorem allocate_kernel_stack_one_page_rejected (st : RMState) :
    ∀ st1 ks, allocate_kernel_stack st 1 ≠ some (st1, Except.ok ks) := by
  intro st1 ks h
  rw [allocate_kernel_stack] at h
  cases har : RegionManager.allocate_region st 1 .KernelStack with
  | none => rw [har] at h; simp at h
  | some p =>
    obtain ⟨st2, r⟩ := p
    rw [har] at h
    cases r with
    | error e => simp at h
    | ok reg =>
      rw [RegionManager.allocate_region] at har
      cases hff : RegionManager.allocateFirstFit st.paging st.entries (1 * PAGE_SIZE)
          .KernelStack with
      | none => rw [hff] at har; simp at har
      | some q =>
        obtain ⟨ps4, l4, r4⟩ := q
        rw [hff] at har
        cases r4 with
        | error e4 => simp at har
        | ok info4 =>
          have : (1 : Nat) * PAGE_SIZE = 4096 := by decide
          rw [this] at hff
          exact allocateFirstFit_kernel_stack_one_page st.entries st.paging ps4 l4 info4 hff

/-! ## Claim C1

The partition invariant of the entry sequence (spec section 3 "Region"):
entries tile the heap VA range contiguously, every entry has positive,
page-aligned, below-2^64 extent, and no two adjacent entries are both Free.
`RegionManager::new` establishes it and C1 asserts allocate-then-drop preserves
the sequence observably. -/

/-- Per-entry well-formedness: positive size, page-aligned, within usize. -/
def RegionMapEntry.wfb (e : RegionMapEntry) : Bool :=
  decide (e.base < e.limit) && decide (e.limit < 2 ^ 64) &&
  decide (e.base % 4096 = 0) && decide (e.limit % 4096 = 0)

/-- The partition invariant of the flattened entry sequence. -/
def entriesWF : List RegionMapEntry → Bool
  | [] => true
  | [e] => e.wfb
  | e :: f :: l =>
    e.wfb && decide (e.limit = f.base)
      && !(decide (e.regionType = .Free) && decide (f.regionType = .Free))
      && entriesWF (f :: l)

theorem wfb_iff (e : RegionMapEntry) :
    e.wfb = true ↔
      e.base < e.limit ∧ e.limit < 2 ^ 64 ∧ e.base % 4096 = 0 ∧ e.limit % 4096 = 0 := by
  simp [RegionMapEntry.wfb, and_assoc]

theorem entriesWF_cons_cons {e f : RegionMapEntry} {l : List RegionMapEntry}
    (h : entriesWF (e :: f :: l) = true) :
    e.wfb = true ∧ e.limit = f.base
      ∧ ¬(e.regionType = .Free ∧ f.regionType = .Free)
      ∧ entriesWF (f :: l) = true := by
  rw [entriesWF] at h
  simp only [Bool.and_eq_true, Bool.not_eq_true', Bool.and_eq_false_iff,
    decide_eq_true_eq, decide_eq_false_iff_not] at h
  refine ⟨h.1.1.1, h.1.1.2, ?_, h.2⟩
  rcases h.1.2 with h3 | h3 <;> intro hc <;> exact h3 (by simp [hc.1, hc.2])

theorem entriesWF_head {e : RegionMapEntry} {l : List RegionMapEntry}
    (h : entriesWF (e :: l) = true) : e.wfb = true := by
  cases l with
  | nil => simpa [entriesWF] using h
  | cons f l2 => exact (entriesWF_cons_cons h).1

theorem entriesWF_tail {e : RegionMapEntry} {l : List RegionMapEntry}
    (h : entriesWF (e :: l) = true) : entriesWF l = true := by
  cases l with
  | nil => rfl
  | cons f l2 => exact (entriesWF_cons_cons h).2.2.2

/-- Along a well-formed chain, the entry `mid` found after a prefix `pre` of the
tail starts at `f.limit` when `pre` is empty and strictly later otherwise. -/
theorem wf_decomp_base (pre : List RegionMapEntry) :
    ∀ (f mid : RegionMapEntry) (suf : List RegionMapEntry),
      entriesWF (f :: (pre ++ mid :: suf)) = true →
      (pre = [] ∧ f.limit = mid.base) ∨ f.limit < mid.base := by
  induction pre with
  | nil =>
    intro f mid suf h
    exact Or.inl ⟨rfl, (entriesWF_cons_cons h).2.1⟩
  | cons p pre2 ih =>
    intro f mid suf h
    have h1 := entriesWF_cons_cons h
    have hplt : p.base < p.limit := ((wfb_iff p).mp (entriesWF_head h1.2.2.2)).1
    have hp := ih p mid suf h1.2.2.2
    right
    rcases hp with ⟨-, heq⟩ | hlt <;> omega

/-- `unmap_region` succeeds on any well-formed non-Free entry (the alignment and
range debug asserts of `unmap_nonpaged` hold). -/
theorem unmap_region_some (ps : PagingState) (e : RegionMapEntry)
    (hty : e.regionType ≠ .Free)
    (h1 : e.base < e.limit) (h2 : e.limit < 2 ^ 64)
    (h3 : e.base % 4096 = 0) (h4 : e.limit % 4096 = 0) :
    ∃ ps2, RegionManager.unmap_region ps e = some ps2 := by
  have hcond : e.limit > e.base ∧ pageAlignedUp e.base ∧ pageAlignedDown e.limit := by
    refine ⟨h1, pageAlignedUp_of_aligned e.base h3 (by omega), pageAlignedDown_of_aligned e.limit h4 h2⟩
  rw [RegionManager.unmap_region]
  have hok : ∀ fp : Bool, RegionManager.unmap_nonpaged ps e.base e.limit fp
      = some (unmapNonpagedGo fp ps e.base ((e.limit - e.base) / PAGE_SIZE)) := by
    intro fp
    rw [RegionManager.unmap_nonpaged, if_pos hcond]
  cases hety : e.regionType with
  | Free => exact absurd hety hty
  | Heap => exact ⟨_, hok true⟩
  | KernelStack => exact ⟨_, hok true⟩
  | PhysicalMapping pm => exact ⟨_, hok false⟩

/-- Step lemma: `deallocDrop` when the asserts pass and `unmap_region`
succeeds. -/
theorem deallocDrop_eq (ps : PagingState) (e : RegionMapEntry)
    (rest : List RegionMapEntry) (lead : Nat) (info : RegionInfo) (psu : PagingState)
    (hty : e.regionType ≠ .Free) (hlim : e.limit = info.limit_va)
    (hu : RegionManager.unmap_region ps e = some psu) :
    RegionManager.deallocDrop ps e rest lead info =
      match rest with
      | e2 :: rest2 =>
        if e2.regionType = .Free then
          some (psu, ⟨e.base - lead, e.limit + e2.size, .Free⟩ :: rest2)
        else
          some (psu, ⟨e.base - lead, e.limit, .Free⟩ :: e2 :: rest2)
      | [] => some (psu, [⟨e.base - lead, e.limit, .Free⟩]) := by
  rw [RegionManager.deallocDrop, if_pos ⟨hty, hlim⟩, hu]

/-- Definitional unfolding of `deallocateRecurse` on a cons cell. -/
theorem deallocateRecurse_cons (ps : PagingState) (e : RegionMapEntry)
    (rest : List RegionMapEntry) (info : RegionInfo) :
    RegionManager.deallocateRecurse ps (e :: rest) info =
      if e.base ≤ info.start_va then
        if e.limit = info.start_va ∧ e.regionType = .Free then
          match rest with
          | [] => none
          | e2 :: rest2 => RegionManager.deallocDrop ps e2 rest2 e.size info
        else if e.base = info.start_va then
          RegionManager.deallocDrop ps e rest 0 info
        else
          match RegionManager.deallocateRecurse ps rest info with
          | none => none
          | some (ps1, l) => some (ps1, e :: l)
      else none := rfl

/-- Step lemma: `deallocateRecurse` lands on the entry to drop. -/
theorem deallocateRecurse_found (ps : PagingState) (e : RegionMapEntry)
    (rest : List RegionMapEntry) (info : RegionInfo)
    (hle : e.base ≤ info.start_va)
    (hlead : ¬(e.limit = info.start_va ∧ e.regionType = .Free))
    (heq : e.base = info.start_va) :
    RegionManager.deallocateRecurse ps (e :: rest) info
      = RegionManager.deallocDrop ps e rest 0 info := by
  rw [deallocateRecurse_cons, if_pos hle, if_neg hlead, if_pos heq]

/-- Step lemma: `deallocateRecurse` skips an earlier entry. -/
theorem deallocateRecurse_skip (ps : PagingState) (e : RegionMapEntry)
    (rest : List RegionMapEntry) (info : RegionInfo)
    (hle : e.base ≤ info.start_va)
    (hlead : ¬(e.limit = info.start_va ∧ e.regionType = .Free))
    (hne : ¬ e.base = info.start_va) :
    RegionManager.deallocateRecurse ps (e :: rest) info
      = match RegionManager.deallocateRecurse ps rest info with
        | none => none
        | some (ps1, l) => some (ps1, e :: l) := by
  rw [deallocateRecurse_cons, if_pos hle, if_neg hlead, if_neg hne]

/-- Core of C1: a successful first-fit allocation of a positive page-multiple
request, followed by `deallocate_recurse_thing` on the returned region info,
restores the entry sequence exactly; moreover the allocation carved a Free
entry of the original sequence whose base is the returned start VA. -/
theorem allocFF_roundtrip (l : List RegionMapEntry) :
    ∀ (ps : PagingState) (req : Nat) (ty : RegionType) (ps1 : PagingState)
      (l1 : List RegionMapEntry) (info : RegionInfo),
      entriesWF l = true → 0 < req → req % 4096 = 0 → ty ≠ .Free →
      RegionManager.allocateFirstFit ps l req ty = some (ps1, l1, .ok info) →
      (∀ ps0, ∃ ps2, RegionManager.deallocateRecurse ps0 l1 info = some (ps2, l))
      ∧ ∃ pre mid suf, l = pre ++ mid :: suf ∧ mid.regionType = .Free
          ∧ mid.base = info.start_va := by
  induction l with
  | nil =>
    intro ps req ty ps1 l1 info hwf hreq hreqm hty h
    simp [RegionManager.allocateFirstFit] at h
  | cons e rest ih =>
    intro ps req ty ps1 l1 info hwf hreq hreqm hty h
    obtain ⟨he1, he2, he3, he4⟩ := (wfb_iff e).mp (entriesWF_head hwf)
    rw [RegionManager.allocateFirstFit] at h
    by_cases hc1 : e.regionType = .Free ∧ req < e.size
    · -- split case: the head entry is carved into the allocation plus a Free tail
      rw [if_pos hc1] at h
      have hsz : e.base + req < e.limit := by
        have := hc1.2
        rw [RegionMapEntry.size] at this
        omega
      cases hall : ps.allocateFrame with
      | none =>
        simp only [hall, Option.some_inj, Prod.mk.injEq] at h
        exact absurd h.2.2 (by simp)
      | some p =>
        obtain ⟨tf, psf⟩ := p
        cases hmr : RegionManager.map_region psf ⟨e.base, e.base + req, e.regionType⟩ ty with
        | none =>
          simp only [hall, hmr] at h
          exact Option.noConfusion h
        | some q =>
          obtain ⟨ps3, r3⟩ := q
          cases r3 with
          | error er =>
            simp only [hall, hmr, Option.some_inj, Prod.mk.injEq] at h
            exact absurd h.2.2 (by simp)
          | ok u =>
            cases u
            simp only [hall, hmr, Option.some_inj, Prod.mk.injEq] at h
            obtain ⟨hps1, hl1, hinfo⟩ := h
            subst hl1
            injection hinfo with hinfo
            subst hinfo
            constructor
            · intro ps0
              obtain ⟨psu, hu⟩ := unmap_region_some ps0 ⟨e.base, e.base + req, ty⟩ hty
                (show e.base < e.base + req by omega)
                (show e.base + req < 2 ^ 64 by omega)
                he3
                (show (e.base + req) % 4096 = 0 by omega)
              refine ⟨psu, ?_⟩
              rw [deallocateRecurse_found ps0 ⟨e.base, e.base + req, ty⟩
                  (⟨e.base + req, e.limit, .Free⟩ :: rest) ⟨e.base, e.base + req⟩
                  (le_refl _)
                  (by intro hc; have hcc := hc.1; simp only at hcc; omega)
                  rfl]
              rw [deallocDrop_eq ps0 ⟨e.base, e.base + req, ty⟩
                  (⟨e.base + req, e.limit, .Free⟩ :: rest) 0 ⟨e.base, e.base + req⟩ psu
                  hty rfl hu]
              simp only [RegionMapEntry.size, Nat.sub_zero, eq_self_iff_true, if_true]
              have harith : e.base + req + (e.limit - (e.base + req)) = e.limit := by omega
              rw [harith]
              have hE : (⟨e.base, e.limit, RegionType.Free⟩ : RegionMapEntry) = e := by
                cases e with
                | mk b lim t =>
                  simp only at hc1 ⊢
                  rw [hc1.1]
              rw [hE]
            · exact ⟨[], e, rest, rfl, hc1.1, rfl⟩
    · rw [if_neg hc1] at h
      by_cases hc2 : e.regionType = .Free ∧ e.size = req
      · -- exact-fit case
        rw [if_pos hc2] at h
        have hsz : e.limit = e.base + req := by
          have := hc2.2
          rw [RegionMapEntry.size] at this
          omega
        cases hmr : RegionManager.map_region ps e ty with
        | none =>
          simp only [hmr] at h
          exact Option.noConfusion h
        | some q =>
          obtain ⟨ps3, r3⟩ := q
          cases r3 with
          | error er =>
            simp only [hmr, Option.some_inj, Prod.mk.injEq] at h
            exact absurd h.2.2 (by simp)
          | ok u =>
            cases u
            simp only [hmr, Option.some_inj, Prod.mk.injEq] at h
            obtain ⟨hps1, hl1, hinfo⟩ := h
            subst hl1
            injection hinfo with hinfo
            subst hinfo
            constructor
            · intro ps0
              obtain ⟨psu, hu⟩ := unmap_region_some ps0 ⟨e.base, e.limit, ty⟩ hty he1 he2 he3 he4
              refine ⟨psu, ?_⟩
              rw [deallocateRecurse_found ps0 ⟨e.base, e.limit, ty⟩ rest ⟨e.base, e.limit⟩
                  (le_refl _)
                  (by intro hc; have hcc := hc.1; simp only at hcc; omega)
                  rfl]
              rw [deallocDrop_eq ps0 ⟨e.base, e.limit, ty⟩ rest 0 ⟨e.base, e.limit⟩ psu
                  hty rfl hu]
              have hE : (⟨e.base, e.limit, RegionType.Free⟩ : RegionMapEntry) = e := by
                cases e with
                | mk b lim t =>
                  simp only at hc2 ⊢
                  rw [hc2.1]
              cases rest with
              | nil =>
                simp only [Nat.sub_zero]
                rw [hE]
              | cons e2 rest2 =>
                have hnf : ¬(e2.regionType = .Free) := by
                  intro hc
                  exact (entriesWF_cons_cons hwf).2.2.1 ⟨hc2.1, hc⟩
                simp only [Nat.sub_zero, if_neg hnf]
                rw [hE]
            · exact ⟨[], e, rest, rfl, hc2.1, rfl⟩
      · -- skip case
        rw [if_neg hc2] at h
        cases hrec : RegionManager.allocateFirstFit ps rest req ty with
        | none =>
          simp only [hrec] at h
          exact Option.noConfusion h
        | some p =>
          obtain ⟨ps3, l3, r3⟩ := p
          simp only [hrec, Option.some_inj, Prod.mk.injEq] at h
          obtain ⟨hps1, hl1, hr3⟩ := h
          cases r3 with
          | error e3 => exact Except.noConfusion hr3
          | ok info3 =>
            injection hr3 with hr3
            rw [hr3] at hrec
            subst hl1
            obtain ⟨hd, pre, mid, suf, hdec, hmidf, hmidb⟩ :=
              ih ps req ty ps3 l3 info (entriesWF_tail hwf) hreq hreqm hty hrec
            have hbase := wf_decomp_base pre e mid suf (by rw [← hdec]; exact hwf)
            have hmid_gt : e.base < info.start_va := by
              rcases hbase with ⟨-, heq⟩ | hlt <;> omega
            constructor
            · intro ps0
              obtain ⟨ps2, h2⟩ := hd ps0
              refine ⟨ps2, ?_⟩
              have hlead : ¬(e.limit = info.start_va ∧ e.regionType = .Free) := by
                intro hc
                rcases hbase with ⟨hpre, heq⟩ | hlt
                · -- mid is the head of rest: adjacent Free entries contradict WF
                  subst hpre
                  simp only [List.nil_append] at hdec
                  rw [hdec] at hwf
                  exact (entriesWF_cons_cons hwf).2.2.1 ⟨hc.2, hmidf⟩
                · omega
              rw [deallocateRecurse_skip ps0 e l3 info (by omega) hlead (by omega), h2]
            · exact ⟨e :: pre, mid, suf, by rw [hdec, List.cons_append], hmidf, hmidb⟩

/-- C1: for every successful `allocate_region(p)` on a well-formed region map
followed by dropping the returned `Region`, the region map (the ordered
base/limit/type entry sequence) is observably equal, as a partition, to its
pre-state: the freed space is re-merged with the adjacent Free space so no
extra free entry remains. -/
theorem allocate_region_then_drop_restores_region_map (st : RMState) (pages : Nat)
    (st1 : RMState) (r : Region)
    (hwf : entriesWF st.entries = true) (hp : 0 < pages)
    (hok : allocate_region st pages = some (st1, .ok r)) :
    ∃ st2, RegionManager.deallocate_region st1 r.regionInfo = some st2
      ∧ st2.entries = st.entries := by
  rw [allocate_region, RegionManager.allocate_region] at hok
  cases hff : RegionManager.allocateFirstFit st.paging st.entries (pages * PAGE_SIZE)
      .Heap with
  | none =>
    rw [hff] at hok
    exact Option.noConfusion hok
  | some q =>
    obtain ⟨ps4, l4, r4⟩ := q
    cases r4 with
    | error e4 =>
      simp only [hff, Option.some_inj, Prod.mk.injEq] at hok
      exact absurd hok.2 (by simp)
    | ok info4 =>
      simp only [hff, Option.some_inj, Prod.mk.injEq] at hok
      obtain ⟨hst1, hr⟩ := hok
      obtain ⟨hd, -⟩ := allocFF_roundtrip st.entries st.paging (pages * PAGE_SIZE) .Heap
        ps4 l4 info4 hwf
        (by have : 0 < PAGE_SIZE := by decide
            exact Nat.mul_pos hp this)
        (by simp [PAGE_SIZE, Nat.mul_mod_left])
        (by simp)
        hff
      obtain ⟨ps2, h2⟩ := hd ps4
      refine ⟨⟨st.entries, ps2⟩, ?_, rfl⟩
      have hlr : st1.entries = l4 ∧ st1.paging = ps4 := by
        rw [← hst1]
        exact ⟨rfl, rfl⟩
      injection hr with hr
      have hri : r.regionInfo = info4 := by
        rw [← hr]
        rfl
      rw [RegionManager.deallocate_region, hlr.1, hlr.2, hri, h2]
      rfl

/-- Witness for C1: a two-page allocation that exactly fits a 8 KiB free entry,
then dropped, restores the singleton Free entry. -/
theorem allocate_region_then_drop_restores_region_map_witness :
    ∃ st2, RegionManager.deallocate_region
        ⟨[⟨4096, 12288, .Heap⟩],
         ⟨[(8192, 0x8000000000008103), (4096, 0x8000000000007103)], []⟩⟩
        (Region.new ⟨4096, 12288⟩).regionInfo = some st2
      ∧ st2.entries = (⟨[⟨4096, 12288, .Free⟩], ⟨[], [7, 8]⟩⟩ : RMState).entries :=
  allocate_region_then_drop_restores_region_map
    ⟨[⟨4096, 12288, .Free⟩], ⟨[], [7, 8]⟩⟩ 2
    ⟨[⟨4096, 12288, .Heap⟩],
     ⟨[(8192, 0x8000000000008103), (4096, 0x8000000000007103)], []⟩⟩
    (Region.new ⟨4096, 12288⟩) (by decide) (by decide) (by rfl)

/-- Witness for C9 on a concrete fresh region manager over the kernel heap
range. -/
theorem allocate_kernel_stack_one_page_rejected_witness :
    allocate_kernel_stack
        (RegionManager.initState KERNEL_HEAP_BASE KERNEL_HEAP_LIMIT ⟨[], [1, 2, 3]⟩) 1
      ≠ some (RegionManager.initState KERNEL_HEAP_BASE KERNEL_HEAP_LIMIT ⟨[], [1, 2, 3]⟩,
          Except.ok ⟨Region.new ⟨0, 0⟩⟩) :=
  allocate_kernel_stack_one_page_rejected _ _ _

/-! ## Kernel heap allocator (src/allocator/simple_allocator.rs)

`HeapRegionList` chains `HeapRegion`s behind a sentinel head; each non-sentinel
region carries a payload with the backing span (static buffer or `Region`), a
`can_free` flag and a `FreeList`.  The model flattens the intrusive list into a
Lean list of regions (the sentinel is the list itself) and keeps of the
`FreeList` its two counters, which `FreeList::deallocate` updates by exactly
`allocated_space -= size; free_space += size`: the hole-list splice this
claim's retain/release decision never reads is not tracked, and only valid
deallocations (those whose free-path asserts pass) are in scope.  The node
`do_deallocate` hands back is NOT a bare region: it is a fresh wrapper
`HeapRegion { payload: None, next: Some(unlinked region) }`, modelled as
`RemovedRegion` so that the `can_free()` call `deallocate` makes on that
wrapper reads the wrapper's own (absent) payload, exactly as the source
does. -/

def MINIMUM_HEAP_REGION_PAGES : Nat := 16
def MINIMUM_HEAP_REGION_SIZE : Nat := MINIMUM_HEAP_REGION_PAGES * PAGE_SIZE

/-- `HEAP_RESERVE_LIMIT = 128` (the `* 1024` factor is commented out in the
source). -/
def HEAP_RESERVE_LIMIT : Nat := 128

structure LayoutM where
  size : Nat
  align : Nat
deriving DecidableEq, Repr

/-- `size_of::<FreeNode>()`: `{ size: usize, next: Option<&mut FreeNode> }` on
x86_64. -/
def FREE_NODE_SIZE : Nat := 16

/-- `align_of::<FreeNode>()` on x86_64. -/
def FREE_NODE_ALIGN : Nat := 8

/-- `Layout::from_size_align` (Rust std): the align must be a power of two and
the size, rounded up to the align, must not overflow `isize`. -/
def Layout.from_size_align (size align : Nat) : Option LayoutM :=
  if isPow2 align ∧ size + (align - 1) ≤ 2 ^ 63 - 1 then some ⟨size, align⟩
  else none

/-- `HeapRegionList::align_layout`: raise the alignment to the FreeNode floor,
raise the size to the FreeNode floor and round it up to FreeNode alignment. -/
def alignLayout (layout : LayoutM) : Option LayoutM :=
  let requiredAlignment := max layout.align FREE_NODE_ALIGN
  match alignUp (max layout.size FREE_NODE_SIZE) FREE_NODE_ALIGN with
  | none => none
  | some requiredSize => Layout.from_size_align requiredSize requiredAlignment

structure HeapRegionM where
  canFree : Bool
  spanStart : Nat
  spanLimit : Nat
  allocatedSpace : Nat
  freeSpace : Nat
deriving DecidableEq, Repr

/-- `PayloadRegionAlloc::contains`: `addr >= start && size < (limit - addr)`
(identical formula for the Buffer and Region variants). -/
def HeapRegionM.contains (r : HeapRegionM) (ptr size : Nat) : Bool :=
  decide (ptr ≥ r.spanStart) && decide (size < r.spanLimit - ptr)

/-- `HeapRegionPayload::deallocate`: `None` means the pointer is not from this
region's span; otherwise the `FreeList` counters are updated. -/
def HeapRegionM.deallocate (r : HeapRegionM) (ptr : Nat) (layout : LayoutM) :
    Option HeapRegionM :=
  if r.contains ptr layout.size then
    some { r with
      allocatedSpace := r.allocatedSpace - layout.size,
      freeSpace := r.freeSpace + layout.size }
  else
    none

/-- The wrapper node `do_deallocate` constructs and returns:
`HeapRegion { payload: None, next: Some(unlinked region) }`.  The wrapper's own
payload is kept so `HeapRegion::can_free` can be read off it exactly as the
source reads it. -/
structure RemovedRegion where
  payload : Option HeapRegionM
  next : HeapRegionM
deriving DecidableEq, Repr

/-- `HeapRegion::can_free`:
`self.payload.as_ref().map(|payload| payload.can_free()).unwrap_or(false)`. -/
def RemovedRegion.can_free (r : RemovedRegion) : Bool :=
  (r.payload.map (fun p => p.canFree)).getD false

/-- `HeapRegionList::do_deallocate`: walk the regions; when the accepting
region's `allocated_space` hits 0 it is unlinked and handed back inside a
payload-less wrapper node; running off the end is
`panic!("Failed to deallocate pointer")`. -/
def doDeallocate (ptr : Nat) (layout : LayoutM) :
    List HeapRegionM → Option (Option RemovedRegion × List HeapRegionM)
  | [] => none
  | r :: rest =>
    match r.deallocate ptr layout with
    | some r1 =>
      if r1.allocatedSpace = 0 then some (some ⟨none, r1⟩, rest)
      else some (none, r1 :: rest)
    | none =>
      match doDeallocate ptr layout rest with
      | none => none
      | some (rem, l) => some (rem, r :: l)

/-- `HeapRegionList::free_space` sums over the regions (the sentinel head
contributes 0). -/
def listFreeSpace (l : List HeapRegionM) : Nat :=
  (l.map (fun r => r.freeSpace)).sum

/-- `HeapRegionList::deallocate`.  The returned Bool records whether the
now-empty region was dropped (`drop_in_place`), releasing its backing `Region`
handle to the region allocator; `false` means it was retained and re-linked at
the list head.  The retain/release test is taken verbatim from the source:
`!removed_region.can_free() || (removed_region.next...free_space() <
MINIMUM_HEAP_REGION_SIZE && self.free_space() < HEAP_RESERVE_LIMIT)`, where
`removed_region` is the payload-less wrapper returned by `do_deallocate` and
`self.free_space()` is measured after the region was unlinked. -/
def HeapRegionList.deallocate (regions : List HeapRegionM) (ptr : Nat)
    (originalLayout : LayoutM) : Option (List HeapRegionM × Bool) :=
  match alignLayout originalLayout with
  | none => some (regions, false)
  | some al =>
    match doDeallocate ptr al regions with
    | none => none
    | some (none, l) => some (l, false)
    | some (some rem, l) =>
      if !rem.can_free
          || (decide (rem.next.freeSpace < MINIMUM_HEAP_REGION_SIZE)
              && decide (listFreeSpace l < HEAP_RESERVE_LIMIT)) then
        some (rem.next :: l, false)
      else
        some (l, true)

/-- Every wrapper `do_deallocate` returns is constructed with `payload: None`. -/
theorem doDeallocate_payload_none (ptr : Nat) (layout : LayoutM) :
    ∀ (regions : List HeapRegionM) (rem : RemovedRegion) (l : List HeapRegionM),
      doDeallocate ptr layout regions = some (some rem, l) → rem.payload = none := by
  intro regions
  induction regions with
  | nil => intro rem l h; cases h
  | cons r rest ih =>
    intro rem l h
    rw [doDeallocate] at h
    cases hd : r.deallocate ptr layout with
    | some r1 =>
      simp only [hd] at h
      by_cases h0 : r1.allocatedSpace = 0
      · rw [if_pos h0] at h
        injection h with h
        injection h with h1 h2
        injection h1 with h1
        subst h1
        rfl
      · rw [if_neg h0] at h
        injection h with h
        injection h with h1 h2
        exact Option.noConfusion h1
    | none =>
      simp only [hd] at h
      cases hrec : doDeallocate ptr layout rest with
      | none =>
        rw [hrec] at h
        exact Option.noConfusion h
      | some p =>
        obtain ⟨rem2, l2⟩ := p
        rw [hrec] at h
        injection h with h
        injection h with h1 h2
        rw [h1] at hrec
        exact ih rem l2 hrec

/-! ## Claim C5 -/

/-- C5 counterexample: a deallocation empties a `can_free` region whose free
space (65584 bytes) is at least `MINIMUM_HEAP_REGION_SIZE` while the rest of
the heap keeps 1000 ≥ `HEAP_RESERVE_LIMIT` bytes free — on both grounds the
claim says the emptied region is released back to the region allocator — yet
`deallocate` re-links it at the list head (released flag `false`): the
retain/release test calls `can_free()` on the payload-less wrapper returned by
`do_deallocate`, which is always `false`. -/
theorem heap_region_release_branch_dead :
    HeapRegionList.deallocate
        [⟨true, 4096, 1048576, 48, 65536⟩, ⟨false, 1048576, 2097152, 500, 1000⟩]
        8192 ⟨48, 8⟩
      = some ([⟨true, 4096, 1048576, 0, 65584⟩, ⟨false, 1048576, 2097152, 500, 1000⟩],
          false)
  ∧ MINIMUM_HEAP_REGION_SIZE ≤ 65584
  ∧ HEAP_RESERVE_LIMIT ≤ 1000 := by
  refine ⟨by decide, by decide, by decide⟩

/-- C5 amended: the release branch of `HeapRegionList::deallocate` is dead
code.  `do_deallocate` returns the unlinked region inside a wrapper
`HeapRegion { payload: None, .. }`, and the retain/release test calls
`can_free()` on that wrapper — `payload.map(..).unwrap_or(false)`, constantly
`false` — so `!removed_region.can_free()` always holds: an emptied region is
always re-linked at the list head and its backing `Region` is never dropped
back to the region allocator, whatever the free-space counters say.  Part one:
a successful deallocation that empties a region re-links exactly that region at
the head with the released flag `false`; part two: no call of `deallocate`
whatsoever ever reports a release. -/
theorem heap_region_always_retained (regions : List HeapRegionM) (ptr : Nat)
    (layout al : LayoutM) (rem : RemovedRegion) (l : List HeapRegionM)
    (hal : alignLayout layout = some al)
    (hdo : doDeallocate ptr al regions = some (some rem, l)) :
    HeapRegionList.deallocate regions ptr layout = some (rem.next :: l, false)
    ∧ ∀ (regions2 : List HeapRegionM) (out : List HeapRegionM × Bool),
        HeapRegionList.deallocate regions2 ptr layout = some out → out.2 = false := by
  have hpn := doDeallocate_payload_none ptr al regions rem l hdo
  have hcf : rem.can_free = false := by
    rw [RemovedRegion.can_free, hpn]
    rfl
  constructor
  · rw [HeapRegionList.deallocate]
    simp only [hal, hdo]
    rw [hcf]
    simp only [Bool.not_false, Bool.true_or, if_true]
  · intro regions2 out h2
    rw [HeapRegionList.deallocate] at h2
    simp only [hal] at h2
    cases hdo2 : doDeallocate ptr al regions2 with
    | none =>
      rw [hdo2] at h2
      exact Option.noConfusion h2
    | some p =>
      obtain ⟨remOpt, l2⟩ := p
      cases remOpt with
      | none =>
        simp only [hdo2] at h2
        injection h2 with h2
        rw [← h2]
      | some rem2 =>
        have hpn2 := doDeallocate_payload_none ptr al regions2 rem2 l2 hdo2
        have hcf2 : rem2.can_free = false := by
          rw [RemovedRegion.can_free, hpn2]
          rfl
        simp only [hdo2] at h2
        rw [hcf2] at h2
        simp only [Bool.not_false, Bool.true_or, if_true] at h2
        injection h2 with h2
        rw [← h2]

/-- Witness for the amended C5 at the counterexample's concrete input: the
emptied `can_free` region is re-linked at the head, not released. -/
theorem heap_region_always_retained_witness :
    HeapRegionList.deallocate
        [⟨true, 4096, 1048576, 48, 65536⟩, ⟨false, 1048576, 2097152, 500, 1000⟩]
        8192 ⟨48, 8⟩
      = some (⟨true, 4096, 1048576, 0, 65584⟩
          :: [⟨false, 1048576, 2097152, 500, 1000⟩], false) :=
  (heap_region_always_retained
      [⟨true, 4096, 1048576, 48, 65536⟩, ⟨false, 1048576, 2097152, 500, 1000⟩]
      8192 ⟨48, 8⟩ ⟨48, 8⟩ ⟨none, ⟨true, 4096, 1048576, 0, 65584⟩⟩
      [⟨false, 1048576, 2097152, 500, 1000⟩]
      (by decide) (by decide)).1

/-! ## Scheduler ready queues (src/scheduler/task.rs, src/scheduler/reschedule.rs)

`TaskDirectoryData` keeps one FIFO per priority (`ready_lists: [LinkedList; 2]`,
index = priority as usize).  The model's task record carries the fields
`find_next_task` reads: pid (identity), `init.priority` and the `init.cpu_id`
affinity; the per-task `RwLock`/`Arc`/intrusive-link plumbing and the saved
architectural context are not observables of the selection claim. -/

inductive TaskPriority where
  | Idle
  | Normal
deriving DecidableEq, Repr

/-- `TaskPriority as usize` (`Idle = 0`, `Normal = 1`). -/
def TaskPriority.toIndex : TaskPriority → Nat
  | .Idle => 0
  | .Normal => 1

def PRIORITIES_COUNT : Nat := 2

structure TaskM where
  pid : Nat
  priority : TaskPriority
  cpuId : Option Nat
deriving DecidableEq, Repr

structure TaskDirectoryDataM where
  readyLists : List (List TaskM)
deriving DecidableEq, Repr

/-- Inner scan of `find_next_task` over one ready list (`front_mut` /
`move_next`): the first task whose affinity `init.cpu_id.unwrap_or(this_cpu)`
equals this CPU is removed and returned. -/
def findFirstAdmitting (thisCpu : Nat) : List TaskM → Option (TaskM × List TaskM)
  | [] => none
  | t :: rest =>
    if t.cpuId.getD thisCpu = thisCpu then some (t, rest)
    else
      match findFirstAdmitting thisCpu rest with
      | none => none
      | some (u, l) => some (u, t :: l)

/-- The `for priority_index in (min_priority_index..PRIORITIES_COUNT).rev()`
loop of `find_next_task`. -/
def findNextTaskGo (thisCpu : Nat) (d : TaskDirectoryDataM) :
    List Nat → Option (TaskM × TaskDirectoryDataM)
  | [] => none
  | i :: idxs =>
    match findFirstAdmitting thisCpu (d.readyLists.getD i []) with
    | some (t, l) => some (t, ⟨d.readyLists.set i l⟩)
    | none => findNextTaskGo thisCpu d idxs

/-- `TaskDirectoryData::find_next_task`. -/
def find_next_task (thisCpu : Nat) (d : TaskDirectoryDataM)
    (currentPriority : Option TaskPriority) : Option (TaskM × TaskDirectoryDataM) :=
  let minIdx := (currentPriority.map TaskPriority.toIndex).getD 0
  findNextTaskGo thisCpu d (((List.range PRIORITIES_COUNT).drop minIdx).reverse)

structure CurrentTaskM where
  current : Option TaskM
  old : Option TaskM
deriving DecidableEq, Repr

/-- `CurrentTask::reschedule` up to the architectural switch: the selection via
`find_next_task(Some(current.priority()))` and, when a task is found, the
`prepare_task_switch` shuffle (current moves to the old slot, the new task
becomes current; the `assert!(old.is_none())` is the panic case).  When nothing
is found it returns with everything unchanged.  `switch_to` /
`complete_task_switch` transfer control on the new stack and are outside this
model. -/
def reschedule (thisCpu : Nat) (d : TaskDirectoryDataM) (cur : CurrentTaskM) :
    Option (TaskDirectoryDataM × CurrentTaskM) :=
  match cur.current with
  | none => none
  | some c =>
    match find_next_task thisCpu d (some c.priority) with
    | none => some (d, cur)
    | some (t, d1) =>
      match cur.old with
      | some _ => none
      | none => some (d1, ⟨some t, some c⟩)

/-! ## Claim C4 -/

theorem findFirstAdmitting_none (thisCpu : Nat) (l : List TaskM)
    (h : findFirstAdmitting thisCpu l = none) :
    ∀ u ∈ l, ¬(u.cpuId.getD thisCpu = thisCpu) := by
  induction l with
  | nil => intro u hu; cases hu
  | cons t rest ih =>
    intro u hu
    rw [findFirstAdmitting] at h
    by_cases ht : t.cpuId.getD thisCpu = thisCpu
    · rw [if_pos ht] at h
      exact Option.noConfusion h
    · rw [if_neg ht] at h
      cases hu with
      | head => exact ht
      | tail _ hu2 =>
        cases hrec : findFirstAdmitting thisCpu rest with
        | none => exact ih hrec u hu2
        | some p =>
          rw [hrec] at h
          exact Option.noConfusion h

theorem findFirstAdmitting_some (thisCpu : Nat) (l : List TaskM)
    (t : TaskM) (l1 : List TaskM)
    (h : findFirstAdmitting thisCpu l = some (t, l1)) :
    ∃ pre suf, l = pre ++ t :: suf ∧ l1 = pre ++ suf
      ∧ (∀ u ∈ pre, ¬(u.cpuId.getD thisCpu = thisCpu))
      ∧ t.cpuId.getD thisCpu = thisCpu := by
  induction l generalizing t l1 with
  | nil => exact Option.noConfusion h
  | cons s rest ih =>
    rw [findFirstAdmitting] at h
    by_cases hs : s.cpuId.getD thisCpu = thisCpu
    · rw [if_pos hs] at h
      injection h with h
      injection h with h1 h2
      subst h1
      subst h2
      refine ⟨[], rest, rfl, rfl, ?_, hs⟩
      intro u hu
      cases hu
    · rw [if_neg hs] at h
      cases hrec : findFirstAdmitting thisCpu rest with
      | none =>
        rw [hrec] at h
        exact Option.noConfusion h
      | some p =>
        obtain ⟨u0, l0⟩ := p
        rw [hrec] at h
        injection h with h
        injection h with h1 h2
        subst h1
        subst h2
        obtain ⟨pre, suf, hdec, hl1, hpre, hadm⟩ := ih u0 l0 hrec
        refine ⟨s :: pre, suf, by rw [hdec, List.cons_append], by rw [hl1, List.cons_append],
          ?_, hadm⟩
        intro u hu
        cases hu with
        | head => exact hs
        | tail _ hu2 => exact hpre u hu2

/-- C4: on CPU `c` whose current task has priority `p`, `reschedule` selects (if
anything) a ready task of priority ≥ p whose affinity admits `c`, taken in FIFO
order from the highest-priority queue in the eligible range that contains an
admitting task; a ready task whose affinity names a different CPU is never
selected; and when no admitting task of priority ≥ p exists, `reschedule`
returns with the directory and current-task state unchanged. -/
theorem reschedule_selects_eligible (cpu : Nat) (d : TaskDirectoryDataM)
    (cur : CurrentTaskM) (c : TaskM)
    (hc : cur.current = some c) (hold : cur.old = none)
    (hwfPri : ∀ i, i < PRIORITIES_COUNT →
      ∀ u ∈ d.readyLists.getD i [], u.priority.toIndex = i) :
    (find_next_task cpu d (some c.priority) = none →
      reschedule cpu d cur = some (d, cur)
      ∧ ∀ i, c.priority.toIndex ≤ i → i < PRIORITIES_COUNT →
          ∀ u ∈ d.readyLists.getD i [], ¬(u.cpuId.getD cpu = cpu))
  ∧ (∀ t d1, find_next_task cpu d (some c.priority) = some (t, d1) →
      reschedule cpu d cur = some (d1, ⟨some t, some c⟩)
      ∧ c.priority.toIndex ≤ t.priority.toIndex
      ∧ t.cpuId.getD cpu = cpu
      ∧ ∃ i pre suf, c.priority.toIndex ≤ i ∧ i < PRIORITIES_COUNT
          ∧ d.readyLists.getD i [] = pre ++ t :: suf
          ∧ (∀ u ∈ pre, ¬(u.cpuId.getD cpu = cpu))
          ∧ (∀ j, i < j → j < PRIORITIES_COUNT →
              ∀ u ∈ d.readyLists.getD j [], ¬(u.cpuId.getD cpu = cpu))
          ∧ d1 = ⟨d.readyLists.set i (pre ++ suf)⟩) := by
  have hidx : ∀ t d1 i, i < PRIORITIES_COUNT →
      findFirstAdmitting cpu (d.readyLists.getD i []) = some (t, d1) →
      c.priority.toIndex ≤ i →
      c.priority.toIndex ≤ t.priority.toIndex ∧ t.cpuId.getD cpu = cpu
      ∧ ∃ pre suf, d.readyLists.getD i [] = pre ++ t :: suf
          ∧ (∀ u ∈ pre, ¬(u.cpuId.getD cpu = cpu)) ∧ d1 = pre ++ suf := by
    intro t d1 i hilt hff hile
    obtain ⟨pre, suf, hdec, hl1, hpre, hadm⟩ := findFirstAdmitting_some cpu _ t d1 hff
    have hmem : t ∈ d.readyLists.getD i [] := by
      rw [hdec]
      exact List.mem_append_right _ (List.mem_cons_self _ _)
    have hpri := hwfPri i hilt t hmem
    exact ⟨by omega, hadm, pre, suf, hdec, hpre, hl1⟩
  constructor
  · intro hnone
    constructor
    · rw [reschedule]
      simp only [hc, hnone]
    · intro i hi1 hi2 u hu
      cases hp : c.priority with
      | Idle =>
        simp only [find_next_task, hp, Option.map_some, Option.getD_some,
          TaskPriority.toIndex] at hnone
        have hlist : (List.drop ((Option.map TaskPriority.toIndex (some TaskPriority.Idle)).getD 0)
            (List.range PRIORITIES_COUNT)).reverse = [1, 0] := by decide
        rw [hlist] at hnone
        rw [findNextTaskGo] at hnone
        cases hff1 : findFirstAdmitting cpu (d.readyLists.getD 1 []) with
        | some p => rw [hff1] at hnone; exact Option.noConfusion hnone
        | none =>
          rw [hff1] at hnone
          rw [findNextTaskGo] at hnone
          cases hff0 : findFirstAdmitting cpu (d.readyLists.getD 0 []) with
          | some p => rw [hff0] at hnone; exact Option.noConfusion hnone
          | none =>
            have hi : i = 0 ∨ i = 1 := by
              rw [hp] at hi1
              simp only [TaskPriority.toIndex] at hi1
              rw [PRIORITIES_COUNT] at hi2
              omega
            rcases hi with hi | hi
            · subst hi; exact findFirstAdmitting_none cpu _ hff0 u hu
            · subst hi; exact findFirstAdmitting_none cpu _ hff1 u hu
      | Normal =>
        simp only [find_next_task, hp, Option.map_some, Option.getD_some,
          TaskPriority.toIndex] at hnone
        have hlist : (List.drop ((Option.map TaskPriority.toIndex (some TaskPriority.Normal)).getD 0)
            (List.range PRIORITIES_COUNT)).reverse = [1] := by decide
        rw [hlist] at hnone
        rw [findNextTaskGo] at hnone
        cases hff1 : findFirstAdmitting cpu (d.readyLists.getD 1 []) with
        | some p => rw [hff1] at hnone; exact Option.noConfusion hnone
        | none =>
          have hi : i = 1 := by
            rw [hp] at hi1
            simp only [TaskPriority.toIndex] at hi1
            rw [PRIORITIES_COUNT] at hi2
            omega
          subst hi
          exact findFirstAdmitting_none cpu _ hff1 u hu
  · intro t d1 hsome
    have hres : reschedule cpu d cur = some (d1, ⟨some t, some c⟩) := by
      rw [reschedule]
      simp only [hc, hsome, hold]
    refine ⟨hres, ?_⟩
    cases hp : c.priority with
    | Idle =>
      simp only [find_next_task, hp, Option.map_some, Option.getD_some,
        TaskPriority.toIndex] at hsome
      have hlist : (List.drop ((Option.map TaskPriority.toIndex (some TaskPriority.Idle)).getD 0)
            (List.range PRIORITIES_COUNT)).reverse = [1, 0] := by decide
      rw [hlist] at hsome
      rw [findNextTaskGo] at hsome
      cases hff1 : findFirstAdmitting cpu (d.readyLists.getD 1 []) with
      | some p =>
        obtain ⟨t1, l1⟩ := p
        rw [hff1] at hsome
        injection hsome with hsome
        injection hsome with h1 h2
        subst h1
        obtain ⟨hple, hadm, pre, suf, hdec, hpre, hl1⟩ :=
          hidx t1 l1 1 (by decide) hff1 (by rw [hp]; decide)
        rw [hp] at hple
        refine ⟨hple, hadm, 1, pre, suf,
          by decide, by decide, hdec, hpre, ?_, ?_⟩
        · intro j hj1 hj2 u hu
          rw [PRIORITIES_COUNT] at hj2
          omega
        · rw [← h2, hl1]
      | none =>
        rw [hff1] at hsome
        rw [findNextTaskGo] at hsome
        cases hff0 : findFirstAdmitting cpu (d.readyLists.getD 0 []) with
        | none =>
          rw [hff0] at hsome
          exact Option.noConfusion hsome
        | some p =>
          obtain ⟨t0, l0⟩ := p
          rw [hff0] at hsome
          injection hsome with hsome
          injection hsome with h1 h2
          subst h1
          obtain ⟨hple, hadm, pre, suf, hdec, hpre, hl1⟩ :=
            hidx t0 l0 0 (by decide) hff0 (by rw [hp]; decide)
          rw [hp] at hple
          refine ⟨hple, hadm, 0, pre, suf,
            by decide, by decide, hdec, hpre, ?_, ?_⟩
          · intro j hj1 hj2 u hu
            rw [PRIORITIES_COUNT] at hj2
            have hj : j = 1 := by omega
            subst hj
            exact findFirstAdmitting_none cpu _ hff1 u hu
          · rw [← h2, hl1]
    | Normal =>
      simp only [find_next_task, hp, Option.map_some, Option.getD_some,
        TaskPriority.toIndex] at hsome
      have hlist : (List.drop ((Option.map TaskPriority.toIndex (some TaskPriority.Normal)).getD 0)
            (List.range PRIORITIES_COUNT)).reverse = [1] := by decide
      rw [hlist] at hsome
      rw [findNextTaskGo] at hsome
      cases hff1 : findFirstAdmitting cpu (d.readyLists.getD 1 []) with
      | none =>
        rw [hff1] at hsome
        rw [findNextTaskGo] at hsome
        exact Option.noConfusion hsome
      | some p =>
        obtain ⟨t1, l1⟩ := p
        rw [hff1] at hsome
        injection hsome with hsome
        injection hsome with h1 h2
        subst h1
        obtain ⟨hple, hadm, pre, suf, hdec, hpre, hl1⟩ :=
          hidx t1 l1 1 (by decide) hff1 (by rw [hp]; decide)
        rw [hp] at hple
        refine ⟨hple, hadm, 1, pre, suf,
          by decide, by decide, hdec, hpre, ?_, ?_⟩
        · intro j hj1 hj2 u hu
          rw [PRIORITIES_COUNT] at hj2
          omega
        · rw [← h2, hl1]

/-- Witness for C4: on CPU 0 with an Idle current task, a Normal task with
affinity CPU 1 at the front of the ready list is skipped and the unaffine
Normal task behind it is selected. -/
theorem reschedule_selects_eligible_witness :
    reschedule 0 ⟨[[], [⟨5, .Normal, some 1⟩, ⟨6, .Normal, none⟩]]⟩
        ⟨some ⟨1, .Idle, some 0⟩, none⟩
      = some (⟨[[], [⟨5, .Normal, some 1⟩]]⟩,
          ⟨some ⟨6, .Normal, none⟩, some ⟨1, .Idle, some 0⟩⟩) :=
  ((reschedule_selects_eligible 0 ⟨[[], [⟨5, .Normal, some 1⟩, ⟨6, .Normal, none⟩]]⟩
      ⟨some ⟨1, .Idle, some 0⟩, none⟩ ⟨1, .Idle, some 0⟩ rfl rfl
      (by decide)).2 ⟨6, .Normal, none⟩ ⟨[[], [⟨5, .Normal, some 1⟩]]⟩ (by decide)).1

/-! ## Physical frame database (src/physmem/frame_database.rs)

A zone (`PageFrameRegion`) owns a byte-array bitmask (bit set ⟺ frame free,
indexed relative to `start_frame`) plus the `free_frames`/`used_frames`
counters.  The byte-level helpers `set_bit`/`get_bit`/`lowest_one_bit` and the
memory-map filtering are modelled directly; the byte mutation of `set_bit` is
factored into `setByteBit` (`|= mask` / `&= !mask`, the u8 complement of a low
mask being `255 ^ mask`). -/

/-- `bootloader::bootinfo::MemoryRegionType`, restricted to the variants the
frame database distinguishes (everything else behaves alike). -/
inductive MemoryRegionType where
  | Usable
  | KernelStack
  | PageTable
  | Bootloader
  | BootInfo
  | Package
  | Other
deriving DecidableEq, Repr

structure MemoryRegionM where
  startAddr : Nat
  endAddr : Nat
  regionType : MemoryRegionType
deriving DecidableEq, Repr

def usable (t : MemoryRegionType) : Bool := t == .Usable

def reclaimable (t : MemoryRegionType) : Bool :=
  t == .KernelStack || t == .PageTable || t == .Bootloader || t == .BootInfo
    || t == .Package

structure FreeMemoryRegion where
  base : Nat
  limit : Nat
deriving DecidableEq, Repr

def MINIMUM_ADDRESS : Nat := 0x10000

/-- `filter_memory_map`: clamp each region to the frame window (with the 64 KiB
floor applied to both window edges) and keep the non-empty regions of matching
type, in memory-map order. -/
def filterMemoryMap (startFrame limitFrame : Nat) (memoryMap : List MemoryRegionM)
    (check : MemoryRegionType → Bool) : List FreeMemoryRegion :=
  let startFrameAddr := max (startFrame * PAGE_SIZE) MINIMUM_ADDRESS
  let limitFrameAddr := max (limitFrame * PAGE_SIZE) MINIMUM_ADDRESS
  memoryMap.filterMap (fun region =>
    let base := max region.startAddr startFrameAddr
    let limit := min region.endAddr limitFrameAddr
    if limit > base ∧ check region.regionType then some ⟨base, limit⟩ else none)

/-- The byte update of `set_bit`: `|= bit_mask` or `&= !bit_mask` on a u8. -/
def setByteBit (b j : Nat) (v : Bool) : Nat :=
  if v then b ||| (1 <<< j) else b &&& (255 ^^^ (1 <<< j))

/-- `get_bit`; `none` is the slice-index panic when the byte is out of
bounds. -/
def getBit (bm : List Nat) (index : Nat) : Option Bool :=
  match bm.get? (index / 8) with
  | none => none
  | some byte => some ((byte &&& (1 <<< (index % 8))) != 0)

/-- `set_bit` (its trailing `assert_eq!(get_bit .., value)` always holds when
in bounds); `none` is the out-of-bounds panic. -/
def setBit (bm : List Nat) (index : Nat) (v : Bool) : Option (List Nat) :=
  match bm.get? (index / 8) with
  | none => none
  | some byte => some (bm.set (index / 8) (setByteBit byte (index % 8) v))

/-- `lowest_one_bit`. -/
def lowestOneBit (byte : Nat) : Option Nat :=
  (List.range 8).find? (fun bit => (byte &&& (1 <<< bit)) != 0)

structure PageFrameRegion where
  startFrame : Nat
  limitFrame : Nat
  freeFrames : Nat
  usedFrames : Nat
  bitmask : List Nat
deriving DecidableEq, Repr

/-- The inner `for free_frame in span_start..span_end` loop of `new`: set each
bit in turn, counting. -/
def markSpan (bm : List Nat) (free start : Nat) : Nat → Option (List Nat × Nat)
  | 0 => some (bm, free)
  | Nat.succ n =>
    match setBit bm start true with
    | none => none
    | some bm1 => markSpan bm1 (free + 1) (start + 1) n

/-- The per-region loop of `new` over the filtered Usable regions. -/
def markRegions (startFrame limitFrame : Nat) (bm : List Nat) (free : Nat) :
    List FreeMemoryRegion → Option (List Nat × Nat)
  | [] => some (bm, free)
  | r :: rs =>
    let s := max (r.base / PAGE_SIZE) startFrame - startFrame
    let e := min (r.limit / PAGE_SIZE) limitFrame - startFrame
    match markSpan bm free s (e - s) with
    | none => none
    | some (bm1, f1) => markRegions startFrame limitFrame bm1 f1 rs

/-- `PageFrameRegion::new`: `bitmask.fill(0)` over a buffer of `bitmaskLen`
bytes, then mark every frame of every clamped Usable region free, counting. -/
def PageFrameRegion.new (startFrame limitFrame : Nat) (memoryMap : List MemoryRegionM)
    (bitmaskLen : Nat) : Option PageFrameRegion :=
  match markRegions startFrame limitFrame (List.replicate bitmaskLen 0) 0
      (filterMemoryMap startFrame limitFrame memoryMap usable) with
  | none => none
  | some (bm1, free) => some ⟨startFrame, limitFrame, free, 0, bm1⟩

/-- The inner loop of `reclaim`: `assert!(get_bit == false, "Reclaiming frame
that is already marked free")`, then set the bit and count. -/
def reclaimSpan (bm : List Nat) (free start : Nat) : Nat → Option (List Nat × Nat)
  | 0 => some (bm, free)
  | Nat.succ n =>
    match getBit bm start with
    | none => none
    | some true => none
    | some false =>
      match setBit bm start true with
      | none => none
      | some bm1 => reclaimSpan bm1 (free + 1) (start + 1) n

/-- The per-region loop of `reclaim` over the filtered reclaimable regions. -/
def reclaimRegions (startFrame limitFrame : Nat) (bm : List Nat) (free : Nat) :
    List FreeMemoryRegion → Option (List Nat × Nat)
  | [] => some (bm, free)
  | r :: rs =>
    let s := max (r.base / PAGE_SIZE) startFrame - startFrame
    let e := min (r.limit / PAGE_SIZE) limitFrame - startFrame
    match reclaimSpan bm free s (e - s) with
    | none => none
    | some (bm1, f1) => reclaimRegions startFrame limitFrame bm1 f1 rs

/-- `PageFrameRegion::reclaim`. -/
def PageFrameRegion.reclaim (r : PageFrameRegion) (memoryMap : List MemoryRegionM) :
    Option PageFrameRegion :=
  match reclaimRegions r.startFrame r.limitFrame r.bitmask r.freeFrames
      (filterMemoryMap r.startFrame r.limitFrame memoryMap reclaimable) with
  | none => none
  | some (bm1, f1) => some { r with bitmask := bm1, freeFrames := f1 }

/-- `bitmask.iter_mut().enumerate().find(|(_, byte)| **byte != 0)`. -/
def findNonzeroByte : List Nat → Option (Nat × Nat)
  | [] => none
  | b :: bs =>
    if b ≠ 0 then some (0, b)
    else
      match findNonzeroByte bs with
      | none => none
      | some (i, byte) => some (i + 1, byte)

/-- `PageFrameRegion::allocate_frame`: outer `none` is a panic (the
`lowest_one_bit` unwrap or the `debug_assert!(frame_index < limit_frame)`),
inner `none` is "no free frame". -/
def PageFrameRegion.allocate_frame (r : PageFrameRegion) :
    Option (Option (Frame × PageFrameRegion)) :=
  match findNonzeroByte r.bitmask with
  | none => some none
  | some (byteIndex, byte) =>
    match lowestOneBit byte with
    | none => none
    | some bitIndex =>
      let frameIndex := byteIndex * 8 + bitIndex
      if frameIndex < r.limitFrame then
        match setBit r.bitmask frameIndex false with
        | none => none
        | some bm1 =>
          some (some (Frame.fromIndex (frameIndex + r.startFrame),
            { r with bitmask := bm1, freeFrames := r.freeFrames - 1,
                     usedFrames := r.usedFrames + 1 }))
      else none

/-- `PageFrameRegion::contains_frame`. -/
def PageFrameRegion.contains_frame (r : PageFrameRegion) (f : Frame) : Bool :=
  decide (f.index ≥ r.startFrame) && decide (f.index < r.limitFrame)

/-- `PageFrameRegion::deallocate_frame`: `assert!(contains_frame)` is the
panic. -/
def PageFrameRegion.deallocate_frame (r : PageFrameRegion) (f : Frame) :
    Option PageFrameRegion :=
  if r.contains_frame f then
    match setBit r.bitmask (f.index - r.startFrame) true with
    | none => none
    | some bm1 =>
      some { r with bitmask := bm1, freeFrames := r.freeFrames + 1,
                    usedFrames := r.usedFrames - 1 }
  else none

/-- Number of set bits in one byte (only the low 8 bits are ever addressed). -/
def byteOnes (b : Nat) : Nat := (List.range 8).countP (fun i => b.testBit i)

/-- Number of set bits in the whole bitmask. -/
def maskOnes (bm : List Nat) : Nat := (bm.map byteOnes).sum

/-! ### Byte-level facts (verified by finite check over all 8-bit values) -/

theorem getBit_testBit : ∀ b < 256, ∀ k < 8, ((b &&& (1 <<< k)) != 0) = b.testBit k := by
  decide

theorem setByteBit_lt : ∀ b < 256, ∀ k < 8, ∀ v : Bool, setByteBit b k v < 256 := by
  decide

theorem setByteBit_testBit_same : ∀ b < 256, ∀ k < 8, ∀ v : Bool,
    (setByteBit b k v).testBit k = v := by
  decide

theorem setByteBit_testBit_other : ∀ b < 256, ∀ k < 8, ∀ m < 8, k ≠ m → ∀ v : Bool,
    (setByteBit b k v).testBit m = b.testBit m := by
  decide

theorem byteOnes_setByteBit_true : ∀ b < 256, ∀ k < 8, b.testBit k = false →
    byteOnes (setByteBit b k true) = byteOnes b + 1 := by
  decide

theorem byteOnes_setByteBit_false : ∀ b < 256, ∀ k < 8, b.testBit k = true →
    byteOnes (setByteBit b k false) + 1 = byteOnes b := by
  decide

theorem byteOnes_pos : ∀ b < 256, ∀ k < 8, b.testBit k = true → 1 ≤ byteOnes b := by
  decide

/-! ### Bitmask list lemmas -/

theorem list_get?_set_self (l : List Nat) : ∀ k v, k < l.length → (l.set k v).get? k = some v := by
  induction l with
  | nil => intro k v h; cases h
  | cons a l2 ih =>
    intro k v h
    cases k with
    | zero => rfl
    | succ k2 =>
      simp only [List.set, List.get?]
      exact ih k2 v (by simpa using h)

theorem list_get?_set_other (l : List Nat) : ∀ k m v, k ≠ m → (l.set k v).get? m = l.get? m := by
  induction l with
  | nil => intro k m v _; rfl
  | cons a l2 ih =>
    intro k m v hne
    cases k with
    | zero =>
      cases m with
      | zero => exact absurd rfl hne
      | succ m2 => rfl
    | succ k2 =>
      cases m with
      | zero => rfl
      | succ m2 =>
        simp only [List.set, List.get?]
        exact ih k2 m2 v (by omega)

theorem list_get?_mem (l : List Nat) : ∀ k b, l.get? k = some b → b ∈ l := by
  induction l with
  | nil => intro k b h; cases h
  | cons a l2 ih =>
    intro k b h
    cases k with
    | zero =>
      injection h with h
      subst h
      exact List.mem_cons_self _ _
    | succ k2 => exact List.mem_cons_of_mem _ (ih k2 b h)

theorem list_mem_set (l : List Nat) : ∀ k v b, b ∈ l.set k v → b = v ∨ b ∈ l := by
  induction l with
  | nil => intro k v b h; cases h
  | cons a l2 ih =>
    intro k v b h
    cases k with
    | zero =>
      cases h with
      | head => exact Or.inl rfl
      | tail _ h2 => exact Or.inr (List.mem_cons_of_mem _ h2)
    | succ k2 =>
      cases h with
      | head => exact Or.inr (List.mem_cons_self _ _)
      | tail _ h2 =>
        rcases ih k2 v b h2 with h3 | h3
        · exact Or.inl h3
        · exact Or.inr (List.mem_cons_of_mem _ h3)

theorem maskOnes_list_set (l : List Nat) : ∀ k old v, l.get? k = some old →
    maskOnes (l.set k v) + byteOnes old = maskOnes l + byteOnes v := by
  induction l with
  | nil => intro k old v h; cases h
  | cons a l2 ih =>
    intro k old v h
    cases k with
    | zero =>
      injection h with h
      subst h
      simp only [List.set, maskOnes, List.map, List.sum_cons]
      omega
    | succ k2 =>
      simp only [List.set, maskOnes, List.map, List.sum_cons]
      have := ih k2 old v h
      simp only [maskOnes] at this
      omega

/-! ### `getBit` / `setBit` lemmas -/

theorem getBit_eq_testBit (bm : List Nat) (i : Nat) (byte : Nat)
    (hb : bm.get? (i / 8) = some byte) (hlt : byte < 256) :
    getBit bm i = some (byte.testBit (i % 8)) := by
  rw [getBit, hb]
  show some ((byte &&& (1 <<< (i % 8))) != 0) = some (byte.testBit (i % 8))
  rw [getBit_testBit byte hlt (i % 8) (by omega)]

theorem setBit_eq (bm : List Nat) (i : Nat) (v : Bool) (byte : Nat)
    (hb : bm.get? (i / 8) = some byte) :
    setBit bm i v = some (bm.set (i / 8) (setByteBit byte (i % 8) v)) := by
  rw [setBit, hb]

theorem setBit_facts (bm : List Nat) (i : Nat) (v : Bool) (bm1 : List Nat)
    (hbytes : ∀ b ∈ bm, b < 256)
    (hset : setBit bm i v = some bm1) :
    (∀ b ∈ bm1, b < 256) ∧ bm1.length = bm.length
    ∧ getBit bm1 i = some v
    ∧ (∀ j, i ≠ j → getBit bm1 j = getBit bm j) := by
  rw [setBit] at hset
  cases hb : bm.get? (i / 8) with
  | none => rw [hb] at hset; exact Option.noConfusion hset
  | some byte =>
    rw [hb] at hset
    injection hset with hset
    subst hset
    have hbyte : byte < 256 := hbytes byte (list_get?_mem bm _ byte hb)
    have hnew : setByteBit byte (i % 8) v < 256 :=
      setByteBit_lt byte hbyte (i % 8) (by omega) v
    have hlen : i / 8 < bm.length := by
      by_contra hc
      rw [List.get?_eq_none.mpr (by omega)] at hb
      exact Option.noConfusion hb
    refine ⟨?_, List.length_set bm _ _, ?_, ?_⟩
    · intro b hbmem
      rcases list_mem_set bm _ _ b hbmem with h3 | h3
      · rw [h3]; exact hnew
      · exact hbytes b h3
    · rw [getBit_eq_testBit _ i _ (list_get?_set_self bm _ _ hlen) hnew]
      rw [setByteBit_testBit_same byte hbyte (i % 8) (by omega) v]
    · intro j hij
      by_cases hsame : i / 8 = j / 8
      · have hbj : (bm.set (i / 8) (setByteBit byte (i % 8) v)).get? (j / 8)
            = some (setByteBit byte (i % 8) v) := by
          rw [← hsame]
          exact list_get?_set_self bm _ _ hlen
        have hbmj : bm.get? (j / 8) = some byte := by rw [← hsame]; exact hb
        rw [getBit_eq_testBit _ j _ hbj hnew, getBit_eq_testBit bm j byte hbmj hbyte]
        rw [setByteBit_testBit_other byte hbyte (i % 8) (by omega) (j % 8) (by omega)
          (by omega) v]
      · have hbj : (bm.set (i / 8) (setByteBit byte (i % 8) v)).get? (j / 8)
            = bm.get? (j / 8) := list_get?_set_other bm _ _ _ hsame
        rw [getBit, hbj, getBit]

theorem maskOnes_setBit_true (bm : List Nat) (i : Nat) (bm1 : List Nat)
    (hbytes : ∀ b ∈ bm, b < 256)
    (hget : getBit bm i = some false)
    (hset : setBit bm i true = some bm1) :
    maskOnes bm1 = maskOnes bm + 1 := by
  rw [setBit] at hset
  cases hb : bm.get? (i / 8) with
  | none => rw [hb] at hset; exact Option.noConfusion hset
  | some byte =>
    rw [hb] at hset
    injection hset with hset
    subst hset
    have hbyte : byte < 256 := hbytes byte (list_get?_mem bm _ byte hb)
    have htb : byte.testBit (i % 8) = false := by
      rw [getBit_eq_testBit bm i byte hb hbyte] at hget
      injection hget
    have hones := byteOnes_setByteBit_true byte hbyte (i % 8) (by omega) htb
    have hms := maskOnes_list_set bm (i / 8) byte (setByteBit byte (i % 8) true) hb
    omega

theorem maskOnes_setBit_false (bm : List Nat) (i : Nat) (bm1 : List Nat)
    (hbytes : ∀ b ∈ bm, b < 256)
    (hget : getBit bm i = some true)
    (hset : setBit bm i false = some bm1) :
    maskOnes bm1 + 1 = maskOnes bm := by
  rw [setBit] at hset
  cases hb : bm.get? (i / 8) with
  | none => rw [hb] at hset; exact Option.noConfusion hset
  | some byte =>
    rw [hb] at hset
    injection hset with hset
    subst hset
    have hbyte : byte < 256 := hbytes byte (list_get?_mem bm _ byte hb)
    have htb : byte.testBit (i % 8) = true := by
      rw [getBit_eq_testBit bm i byte hb hbyte] at hget
      injection hget
    have hones := byteOnes_setByteBit_false byte hbyte (i % 8) (by omega) htb
    have hms := maskOnes_list_set bm (i / 8) byte (setByteBit byte (i % 8) false) hb
    omega

/-! ### Span lemmas -/

theorem markSpan_spec (n : Nat) : ∀ bm free start bm1 free1,
    (∀ b ∈ bm, b < 256) →
    (∀ k, start ≤ k → k < start + n → getBit bm k ≠ some true) →
    markSpan bm free start n = some (bm1, free1) →
    maskOnes bm1 = maskOnes bm + n ∧ free1 = free + n
    ∧ (∀ b ∈ bm1, b < 256)
    ∧ (∀ i, getBit bm1 i = some true →
        getBit bm i = some true ∨ (start ≤ i ∧ i < start + n)) := by
  induction n with
  | zero =>
    intro bm free start bm1 free1 hbytes _ h
    injection h with h
    injection h with h1 h2
    subst h1
    subst h2
    exact ⟨by omega, by omega, hbytes, fun i hi => Or.inl hi⟩
  | succ n ih =>
    intro bm free start bm1 free1 hbytes hclear h
    rw [markSpan] at h
    cases hsb : setBit bm start true with
    | none => rw [hsb] at h; exact Option.noConfusion h
    | some bm2 =>
      rw [hsb] at h
      obtain ⟨hbytes2, hlen2, hsame, hother⟩ := setBit_facts bm start true bm2 hbytes hsb
      have hget : getBit bm start = some false := by
        rw [setBit] at hsb
        cases hb : bm.get? (start / 8) with
        | none => rw [hb] at hsb; exact Option.noConfusion hsb
        | some byte =>
          have hbyte : byte < 256 := hbytes byte (list_get?_mem bm _ byte hb)
          rw [getBit_eq_testBit bm start byte hb hbyte]
          cases htb : byte.testBit (start % 8) with
          | false => rfl
          | true =>
            exfalso
            exact hclear start (le_refl _) (by omega)
              (by rw [getBit_eq_testBit bm start byte hb hbyte, htb])
      have hmask := maskOnes_setBit_true bm start bm2 hbytes hget hsb
      have hclear2 : ∀ k, start + 1 ≤ k → k < start + 1 + n → getBit bm2 k ≠ some true := by
        intro k h1 h2 hc
        rw [hother k (by omega)] at hc
        exact hclear k (by omega) (by omega) hc
      obtain ⟨hM, hF, hB, hT⟩ := ih bm2 (free + 1) (start + 1) bm1 free1 hbytes2 hclear2 h
      refine ⟨by omega, by omega, hB, ?_⟩
      intro i hi
      rcases hT i hi with hi2 | hi2
      · by_cases hie : start = i
        · right; omega
        · left
          rw [← hother i hie]
          exact hi2
      · right; omega

theorem reclaimSpan_spec (n : Nat) : ∀ bm free start bm1 free1,
    (∀ b ∈ bm, b < 256) →
    reclaimSpan bm free start n = some (bm1, free1) →
    maskOnes bm1 = maskOnes bm + n ∧ free1 = free + n ∧ (∀ b ∈ bm1, b < 256) := by
  induction n with
  | zero =>
    intro bm free start bm1 free1 hbytes h
    injection h with h
    injection h with h1 h2
    subst h1
    subst h2
    exact ⟨by omega, by omega, hbytes⟩
  | succ n ih =>
    intro bm free start bm1 free1 hbytes h
    rw [reclaimSpan] at h
    cases hg : getBit bm start with
    | none => rw [hg] at h; exact Option.noConfusion h
    | some b =>
      cases b with
      | true => rw [hg] at h; exact Option.noConfusion h
      | false =>
        rw [hg] at h
        cases hsb : setBit bm start true with
        | none => rw [hsb] at h; exact Option.noConfusion h
        | some bm2 =>
          rw [hsb] at h
          obtain ⟨hbytes2, -, -, -⟩ := setBit_facts bm start true bm2 hbytes hsb
          have hmask := maskOnes_setBit_true bm start bm2 hbytes hg hsb
          obtain ⟨hM, hF, hB⟩ := ih bm2 (free + 1) (start + 1) bm1 free1 hbytes2 h
          exact ⟨by omega, by omega, hB⟩

/-- Pairwise frame-span disjointness of the filtered regions. -/
def spanDisj (startFrame limitFrame : Nat) (r1 r2 : FreeMemoryRegion) : Bool :=
  decide (min (r1.limit / PAGE_SIZE) limitFrame - startFrame
      ≤ max (r2.base / PAGE_SIZE) startFrame - startFrame)
  || decide (min (r2.limit / PAGE_SIZE) limitFrame - startFrame
      ≤ max (r1.base / PAGE_SIZE) startFrame - startFrame)

def spansDisjoint (startFrame limitFrame : Nat) : List FreeMemoryRegion → Bool
  | [] => true
  | r :: rs =>
    rs.all (spanDisj startFrame limitFrame r) && spansDisjoint startFrame limitFrame rs

theorem markRegions_spec (regions : List FreeMemoryRegion) :
    ∀ (sf lf : Nat) (bm : List Nat) (free : Nat) (bm1 : List Nat) (free1 : Nat),
      (∀ b ∈ bm, b < 256) →
      free = maskOnes bm →
      spansDisjoint sf lf regions = true →
      (∀ r0 ∈ regions, ∀ i, getBit bm i = some true →
        ¬(max (r0.base / PAGE_SIZE) sf - sf ≤ i
          ∧ i < min (r0.limit / PAGE_SIZE) lf - sf)) →
      markRegions sf lf bm free regions = some (bm1, free1) →
      free1 = maskOnes bm1 ∧ (∀ b ∈ bm1, b < 256) := by
  induction regions with
  | nil =>
    intro sf lf bm free bm1 free1 hbytes hfree _ _ h
    injection h with h
    injection h with h1 h2
    subst h1
    subst h2
    exact ⟨hfree, hbytes⟩
  | cons r rs ih =>
    intro sf lf bm free bm1 free1 hbytes hfree hdisj hnos h
    rw [markRegions] at h
    cases hms : markSpan bm free (max (r.base / PAGE_SIZE) sf - sf)
        (min (r.limit / PAGE_SIZE) lf - sf - (max (r.base / PAGE_SIZE) sf - sf)) with
    | none => rw [hms] at h; exact Option.noConfusion h
    | some p =>
      obtain ⟨bm2, f2⟩ := p
      rw [hms] at h
      have hclear : ∀ k, max (r.base / PAGE_SIZE) sf - sf ≤ k →
          k < max (r.base / PAGE_SIZE) sf - sf
            + (min (r.limit / PAGE_SIZE) lf - sf - (max (r.base / PAGE_SIZE) sf - sf)) →
          getBit bm k ≠ some true := by
        intro k h1 h2 hc
        exact hnos r (List.mem_cons_self _ _) k hc ⟨h1, by omega⟩
      obtain ⟨hM, hF, hB, hT⟩ := markSpan_spec _ bm free _ bm2 f2 hbytes hclear hms
      have hdisj2 : spansDisjoint sf lf rs = true := by
        rw [spansDisjoint, Bool.and_eq_true] at hdisj
        exact hdisj.2
      have hall : ∀ r0 ∈ rs, spanDisj sf lf r r0 = true := by
        rw [spansDisjoint, Bool.and_eq_true] at hdisj
        exact fun r0 hr0 => (List.all_eq_true.mp hdisj.1) r0 hr0
      have hnos2 : ∀ r0 ∈ rs, ∀ i, getBit bm2 i = some true →
          ¬(max (r0.base / PAGE_SIZE) sf - sf ≤ i
            ∧ i < min (r0.limit / PAGE_SIZE) lf - sf) := by
        intro r0 hr0 i hi hin
        rcases hT i hi with hi2 | hi2
        · exact hnos r0 (List.mem_cons_of_mem _ hr0) i hi2 hin
        · have hd := hall r0 hr0
          rw [spanDisj, Bool.or_eq_true, decide_eq_true_eq, decide_eq_true_eq] at hd
          rcases hd with hd | hd <;> omega
      exact ih sf lf bm2 f2 bm1 free1 hB (by omega) hdisj2 hnos2 h

theorem reclaimRegions_spec (regions : List FreeMemoryRegion) :
    ∀ (sf lf : Nat) (bm : List Nat) (free : Nat) (bm1 : List Nat) (free1 : Nat),
      (∀ b ∈ bm, b < 256) →
      reclaimRegions sf lf bm free regions = some (bm1, free1) →
      maskOnes bm1 + free = maskOnes bm + free1 ∧ free ≤ free1
      ∧ (∀ b ∈ bm1, b < 256) := by
  induction regions with
  | nil =>
    intro sf lf bm free bm1 free1 hbytes h
    injection h with h
    injection h with h1 h2
    subst h1
    subst h2
    exact ⟨by omega, le_refl _, hbytes⟩
  | cons r rs ih =>
    intro sf lf bm free bm1 free1 hbytes h
    rw [reclaimRegions] at h
    cases hms : reclaimSpan bm free (max (r.base / PAGE_SIZE) sf - sf)
        (min (r.limit / PAGE_SIZE) lf - sf - (max (r.base / PAGE_SIZE) sf - sf)) with
    | none => rw [hms] at h; exact Option.noConfusion h
    | some p =>
      obtain ⟨bm2, f2⟩ := p
      rw [hms] at h
      obtain ⟨hM, hF, hB⟩ := reclaimSpan_spec _ bm free _ bm2 f2 hbytes hms
      obtain ⟨hM2, hF2, hB2⟩ := ih sf lf bm2 f2 bm1 free1 hB h
      exact ⟨by omega, by omega, hB2⟩

/-! ### Operation-level accounting lemmas -/

theorem findNonzeroByte_some (l : List Nat) : ∀ i byte,
    findNonzeroByte l = some (i, byte) → l.get? i = some byte ∧ byte ≠ 0 := by
  induction l with
  | nil => intro i byte h; cases h
  | cons b bs ih =>
    intro i byte h
    rw [findNonzeroByte] at h
    by_cases hb : b ≠ 0
    · rw [if_pos hb] at h
      injection h with h
      injection h with h1 h2
      subst h1
      subst h2
      exact ⟨rfl, hb⟩
    · rw [if_neg hb] at h
      cases hrec : findNonzeroByte bs with
      | none => rw [hrec] at h; exact Option.noConfusion h
      | some p =>
        obtain ⟨i2, byte2⟩ := p
        rw [hrec] at h
        injection h with h
        injection h with h1 h2
        subst h1
        subst h2
        obtain ⟨hg, hne⟩ := ih i2 byte2 hrec
        exact ⟨hg, hne⟩

theorem maskOnes_replicate (n : Nat) : maskOnes (List.replicate n 0) = 0 := by
  induction n with
  | zero => rfl
  | succ n ih =>
    rw [List.replicate_succ]
    simp only [maskOnes, List.map, List.sum_cons]
    have h0 : byteOnes 0 = 0 := by decide
    simp only [maskOnes] at ih
    omega

theorem getBit_replicate_zero (n i : Nat) :
    getBit (List.replicate n 0) i ≠ some true := by
  intro h
  rw [getBit] at h
  cases hb : (List.replicate n 0).get? (i / 8) with
  | none => rw [hb] at h; exact Option.noConfusion h
  | some byte =>
    have hz : byte = 0 := List.eq_of_mem_replicate (list_get?_mem _ _ _ hb)
    rw [hb, hz] at h
    injection h with h
    simp at h

/-- `PageFrameRegion::new` establishes the accounting invariant when the usable
regions cover pairwise-disjoint frame spans. -/
theorem new_spec (sf lf : Nat) (memoryMap : List MemoryRegionM) (len : Nat)
    (r : PageFrameRegion)
    (hdisj : spansDisjoint sf lf (filterMemoryMap sf lf memoryMap usable) = true)
    (h : PageFrameRegion.new sf lf memoryMap len = some r) :
    r.freeFrames = maskOnes r.bitmask ∧ r.usedFrames = 0
    ∧ (∀ b ∈ r.bitmask, b < 256) := by
  rw [PageFrameRegion.new] at h
  cases hmr : markRegions sf lf (List.replicate len 0) 0
      (filterMemoryMap sf lf memoryMap usable) with
  | none => rw [hmr] at h; exact Option.noConfusion h
  | some p =>
    obtain ⟨bm1, free1⟩ := p
    rw [hmr] at h
    injection h with h
    subst h
    obtain ⟨h1, h2⟩ := markRegions_spec _ sf lf (List.replicate len 0) 0 bm1 free1
      (by intro b hb; rw [List.eq_of_mem_replicate hb]; omega)
      (by rw [maskOnes_replicate])
      hdisj
      (by intro r0 _ i hi _; exact getBit_replicate_zero len i hi)
      hmr
    exact ⟨h1, rfl, h2⟩

/-- `allocate_frame` keeps the free counter in sync with the bitmask and moves
one frame from free to used. -/
theorem allocate_frame_spec (r : PageFrameRegion) (f : Frame) (r2 : PageFrameRegion)
    (hbytes : ∀ b ∈ r.bitmask, b < 256)
    (hfree : r.freeFrames = maskOnes r.bitmask)
    (h : r.allocate_frame = some (some (f, r2))) :
    r2.freeFrames = maskOnes r2.bitmask
    ∧ r2.freeFrames + r2.usedFrames = r.freeFrames + r.usedFrames
    ∧ (∀ b ∈ r2.bitmask, b < 256) := by
  rw [PageFrameRegion.allocate_frame] at h
  cases hfz : findNonzeroByte r.bitmask with
  | none =>
    rw [hfz] at h
    injection h with h
    exact Option.noConfusion h
  | some p =>
    obtain ⟨bi, byte⟩ := p
    simp only [hfz] at h
    obtain ⟨hget?, hbne⟩ := findNonzeroByte_some r.bitmask bi byte hfz
    have hbyte : byte < 256 := hbytes byte (list_get?_mem _ _ _ hget?)
    cases hlow : lowestOneBit byte with
    | none => simp only [hlow] at h; exact Option.noConfusion h
    | some j =>
      simp only [hlow] at h
      have hj8 : j < 8 := by
        have hm := List.mem_of_find?_eq_some hlow
        simpa using hm
      have htb : byte.testBit j = true := by
        have hp := List.find?_some hlow
        rw [getBit_testBit byte hbyte j hj8] at hp
        exact hp
      by_cases hfi : bi * 8 + j < r.limitFrame
      · rw [if_pos hfi] at h
        cases hsb : setBit r.bitmask (bi * 8 + j) false with
        | none => simp only [hsb] at h; exact Option.noConfusion h
        | some bm1 =>
          simp only [hsb] at h
          injection h with h
          injection h with h
          injection h with hfeq hreq
          have hdiv : (bi * 8 + j) / 8 = bi := by omega
          have hmod : (bi * 8 + j) % 8 = j := by omega
          have hgb : getBit r.bitmask (bi * 8 + j) = some true := by
            rw [getBit_eq_testBit _ _ byte (by rw [hdiv]; exact hget?) hbyte, hmod, htb]
          have hmask := maskOnes_setBit_false _ _ _ hbytes hgb hsb
          obtain ⟨hb2, -, -, -⟩ := setBit_facts _ _ _ _ hbytes hsb
          have hpos : 1 ≤ maskOnes r.bitmask := by
            have h1 : 1 ≤ byteOnes byte := byteOnes_pos byte hbyte j hj8 htb
            have h2 : byteOnes byte ∈ r.bitmask.map byteOnes :=
              List.mem_map_of_mem _ (list_get?_mem _ _ _ hget?)
            have h3 : byteOnes byte ≤ (r.bitmask.map byteOnes).sum :=
              List.single_le_sum (by intro x _; omega) _ h2
            have h4 : maskOnes r.bitmask = (r.bitmask.map byteOnes).sum := rfl
            omega
          rw [← hreq]
          refine ⟨?_, ?_, hb2⟩
          · show r.freeFrames - 1 = maskOnes bm1
            omega
          · show r.freeFrames - 1 + (r.usedFrames + 1) = r.freeFrames + r.usedFrames
            omega
      · rw [if_neg hfi] at h
        exact Option.noConfusion h

/-- `deallocate_frame` of a currently-allocated frame keeps the counter in sync
and moves one frame from used back to free. -/
theorem deallocate_frame_spec (r : PageFrameRegion) (f : Frame) (r2 : PageFrameRegion)
    (hbytes : ∀ b ∈ r.bitmask, b < 256)
    (hfree : r.freeFrames = maskOnes r.bitmask)
    (hbit : getBit r.bitmask (f.index - r.startFrame) = some false)
    (hused : 0 < r.usedFrames)
    (h : r.deallocate_frame f = some r2) :
    r2.freeFrames = maskOnes r2.bitmask
    ∧ r2.freeFrames + r2.usedFrames = r.freeFrames + r.usedFrames
    ∧ (∀ b ∈ r2.bitmask, b < 256) := by
  rw [PageFrameRegion.deallocate_frame] at h
  by_cases hcf : r.contains_frame f = true
  · rw [if_pos hcf] at h
    cases hsb : setBit r.bitmask (f.index - r.startFrame) true with
    | none => rw [hsb] at h; exact Option.noConfusion h
    | some bm1 =>
      rw [hsb] at h
      injection h with h
      have hmask := maskOnes_setBit_true _ _ _ hbytes hbit hsb
      obtain ⟨hb2, -, -, -⟩ := setBit_facts _ _ _ _ hbytes hsb
      rw [← h]
      refine ⟨?_, ?_, hb2⟩
      · show r.freeFrames + 1 = maskOnes bm1
        omega
      · show r.freeFrames + 1 + (r.usedFrames - 1) = r.freeFrames + r.usedFrames
        omega
  · rw [if_neg hcf] at h
    exact Option.noConfusion h

/-- `reclaim` keeps the free counter in sync, never decreases it, and leaves
the used counter alone; the asserts guarantee every reclaimed bit was clear. -/
theorem reclaim_spec (r : PageFrameRegion) (memoryMap : List MemoryRegionM)
    (r2 : PageFrameRegion)
    (hbytes : ∀ b ∈ r.bitmask, b < 256)
    (hfree : r.freeFrames = maskOnes r.bitmask)
    (h : r.reclaim memoryMap = some r2) :
    r2.freeFrames = maskOnes r2.bitmask
    ∧ r.freeFrames ≤ r2.freeFrames
    ∧ r2.usedFrames = r.usedFrames
    ∧ (∀ b ∈ r2.bitmask, b < 256) := by
  rw [PageFrameRegion.reclaim] at h
  cases hrr : reclaimRegions r.startFrame r.limitFrame r.bitmask r.freeFrames
      (filterMemoryMap r.startFrame r.limitFrame memoryMap reclaimable) with
  | none => rw [hrr] at h; exact Option.noConfusion h
  | some p =>
    obtain ⟨bm1, f1⟩ := p
    rw [hrr] at h
    injection h with h
    obtain ⟨hM, hF, hB⟩ := reclaimRegions_spec _ r.startFrame r.limitFrame r.bitmask
      r.freeFrames bm1 f1 hbytes hrr
    rw [← h]
    exact ⟨by show f1 = maskOnes bm1; omega, by show r.freeFrames ≤ f1; omega, rfl, hB⟩

/-! ## Claim C3 -/

/-- The frame-accounting invariant (C3 amended): the free counter equals the
number of set bits in the bitmask, and free + used equals the number of frames
the zone has been given. -/
def PfrInv (r : PageFrameRegion) (given : Nat) : Prop :=
  r.freeFrames = maskOnes r.bitmask
  ∧ r.freeFrames + r.usedFrames = given
  ∧ ∀ b ∈ r.bitmask, b < 256

/-- Zone histories: any sequence of operations starting from initialization.
The ghost Nat is the number of frames made available to the zone (initially
usable, plus reclaimed).  The `init` step assumes the memory map's usable
regions cover pairwise-disjoint frame spans; the `dealloc` step carries the
ownership discipline: only a currently-allocated frame (bit clear, used > 0) is
returned. -/
inductive PfrReach : PageFrameRegion → Nat → Prop where
  | init (startFrame limitFrame bitmaskLen : Nat) (memoryMap : List MemoryRegionM)
      (r : PageFrameRegion)
      (hdisj : spansDisjoint startFrame limitFrame
        (filterMemoryMap startFrame limitFrame memoryMap usable) = true)
      (hnew : PageFrameRegion.new startFrame limitFrame memoryMap bitmaskLen = some r) :
      PfrReach r r.freeFrames
  | alloc (r : PageFrameRegion) (given : Nat) (f : Frame) (r2 : PageFrameRegion)
      (hr : PfrReach r given)
      (hstep : r.allocate_frame = some (some (f, r2))) :
      PfrReach r2 given
  | dealloc (r : PageFrameRegion) (given : Nat) (f : Frame) (r2 : PageFrameRegion)
      (hr : PfrReach r given)
      (hbit : getBit r.bitmask (f.index - r.startFrame) = some false)
      (hused : 0 < r.usedFrames)
      (hstep : r.deallocate_frame f = some r2) :
      PfrReach r2 given
  | reclaim (r : PageFrameRegion) (given : Nat) (memoryMap : List MemoryRegionM)
      (r2 : PageFrameRegion)
      (hr : PfrReach r given)
      (hstep : r.reclaim memoryMap = some r2) :
      PfrReach r2 (given + (r2.freeFrames - r.freeFrames))

/-- C3 counterexample: the LOW zone (`UNUSED_LOW_FRAMES = 16` to
`LOW_REGION_FRAMES = 4096`, bitmask of 512 bytes) built over a memory map with
one 16 KiB Usable region at 2 MiB ends with `free_frames + used_frames = 4`,
while the zone's range spans 4080 frames: the two counts sum to the number of
usable frames, not to the size of the zone's range. -/
theorem zone_counts_do_not_cover_range :
    ((PageFrameRegion.new 16 4096 [⟨0x200000, 0x204000, .Usable⟩] 512).map
      (fun s => (s.freeFrames + s.usedFrames, s.limitFrame - s.startFrame)))
      = some (4, 4080)
  ∧ (4 : Nat) ≠ 4080 := by
  constructor
  · decide
  · decide

/-- C3 amended: for every zone state reachable by any sequence of
allocate/deallocate/reclaim from initialization (with disjoint usable spans and
the deallocate-only-allocated-frames discipline), the recorded free count
equals the number of set bits in the zone's bitmask, and free + used equals the
number of frames given to the zone (initially-usable plus reclaimed) — not, in
general, the size of the zone's frame range. -/
theorem pfr_reach_invariant (r : PageFrameRegion) (given : Nat)
    (h : PfrReach r given) : PfrInv r given := by
  induction h with
  | init sf lf len mm r hdisj hnew =>
    obtain ⟨h1, h2, h3⟩ := new_spec sf lf mm len r hdisj hnew
    exact ⟨h1, by omega, h3⟩
  | alloc r g f r2 hr hstep ih =>
    obtain ⟨i1, i2, i3⟩ := ih
    obtain ⟨a1, a2, a3⟩ := allocate_frame_spec r f r2 i3 i1 hstep
    exact ⟨a1, by omega, a3⟩
  | dealloc r g f r2 hr hbit hused hstep ih =>
    obtain ⟨i1, i2, i3⟩ := ih
    obtain ⟨a1, a2, a3⟩ := deallocate_frame_spec r f r2 i3 i1 hbit hused hstep
    exact ⟨a1, by omega, a3⟩
  | reclaim r g mm r2 hr hstep ih =>
    obtain ⟨i1, i2, i3⟩ := ih
    obtain ⟨c1, c2, c3, c4⟩ := reclaim_spec r mm r2 i3 i1 hstep
    refine ⟨c1, ?_, c4⟩
    omega

/-- Witness for the amended C3: a small zone [16, 32) with one usable region of
4 frames satisfies the invariant right after initialization. -/
theorem pfr_reach_invariant_witness :
    PfrInv ⟨16, 32, 4, 0, [15, 0]⟩ 4 :=
  pfr_reach_invariant _ _ (PfrReach.init 16 32 2 [⟨0x10000, 0x14000, .Usable⟩]
    ⟨16, 32, 4, 0, [15, 0]⟩ (by decide) (by decide))

end RustKern
